import Mathlib

/-!
Verification development for the monapi Query Translation & CRUD
Orchestration Engine.  The definitions below are a shallow embedding of the
TypeScript sources: `src/engine/filter-parser.ts`, `src/engine/query-builder.ts`,
the CRUD operations (`crud-operations.ts` / `crud-handlers.ts`), the
permission checker (`src/core/permission-checker.ts`) and the hono framework
adapter (`src/adapters/framework/hono.ts`).

Modelling conventions:
* JavaScript exceptions become `Except ApiError`.
* Query-string values are modelled by `QVal` (a string, `undefined`, or a
  nested object as produced by bracket syntax).  Array-valued query
  parameters (repeated keys) are outside the model.
* JavaScript objects used as maps are association lists in insertion order;
  property assignment is `setKey` (overwrite in place or append).
* JS numbers are modelled as `ℚ`; `Number(string)` and `parseInt(x, 10)` are
  modelled by `jsNumber` / `jsParseInt` restricted to finite decimal
  literals (hex/octal/binary/Infinity forms map to `none`, i.e. NaN).
* `new Date(string)` validity is implementation-defined in JS, so it is a
  parameter `dp : String → Option Int` (epoch milliseconds, `none` = NaN)
  threaded through the parser.
* Error message strings follow the source but elide quote characters.
-/

namespace Monapi

/-- A query-string parameter value as delivered by the transport layer:
`undefined`, a string, or a nested object (bracket syntax `filter[a][b]`). -/
inductive QVal where
  | undef
  | str (s : String)
  | obj (entries : List (String × QVal))

/-- JS `String(v)` conversion for the values of `QVal`. -/
def jsString : QVal → String
  | .undef => "undefined"
  | .str s => s
  | .obj _ => "[object Object]"

/-- Test `value === undefined || value === ''` (filter-parser line 149). -/
def isEmptyOrUndef : QVal → Bool
  | .undef => true
  | .str s => s = ""
  | .obj _ => false

/-- Strict JS equality of a `QVal` against a string literal. -/
def qvalIsStr (v : QVal) (s : String) : Bool :=
  match v with
  | .str s' => s' = s
  | _ => false

/-- The whitespace characters relevant to JS `trim` / `parseInt` skipping
(restricted to the common ASCII forms). -/
def isJsSpace (c : Char) : Bool :=
  c = ' ' || c = '\t' || c = '\n' || c = '\r'

/-- JS `String.prototype.trim` (character-level model). -/
def jsTrim (s : String) : String :=
  ⟨((s.data.dropWhile isJsSpace).reverse.dropWhile isJsSpace).reverse⟩

/-- Model of the reserved-prefix test `s.startsWith('$')`. -/
def startsWithDollar (s : String) : Bool :=
  match s.data with
  | '$' :: _ => true
  | _ => false

/-- Model of `s.startsWith(c)` for a single character. -/
def startsWithChar (c : Char) (s : String) : Bool :=
  match s.data with
  | c' :: _ => c' = c
  | [] => false

/-- Model of `s.substring(1)` (character-level). -/
def dropFirstChar (s : String) : String :=
  ⟨s.data.drop 1⟩

/-- Model of `s.split(',')` (character-level model of JS split on a single comma;
the empty string yields `[""]`, like JS). -/
def splitCommaAux : List Char → List Char → List String
  | [], acc => [⟨acc.reverse⟩]
  | ',' :: rest, acc => ⟨acc.reverse⟩ :: splitCommaAux rest []
  | c :: rest, acc => splitCommaAux rest (c :: acc)

def splitComma (s : String) : List String :=
  splitCommaAux s.data []

/-- Field type enumeration from `src/types/query.ts`. -/
inductive FieldType where
  | string | number | boolean | date | objectId | array | object | mixed
  deriving DecidableEq, Repr

/-- A coerced scalar value produced by `coerceSingleValue`. -/
inductive JSPrim where
  | str (s : String)
  | num (q : ℚ)
  | bool (b : Bool)
  | date (ms : Int)
  deriving DecidableEq, Repr

/-- A coerced filter value: a scalar, a case-insensitive regex produced for
`like`, or an array produced for `in`/`nin`. -/
inductive JSValue where
  | prim (p : JSPrim)
  | regexI (pattern : String)
  | arr (els : List JSPrim)
  deriving DecidableEq, Repr

/-- Test `typeof v === 'object'` for a coerced value: `Date`, `RegExp` and arrays
are objects; strings, numbers and booleans are not. -/
def JSValue.isObject : JSValue → Bool
  | .prim (.date _) => true
  | .regexI _ => true
  | .arr _ => true
  | _ => false

/-- The value stored under one field key of the built filter object.
`value` is a plain value assigned by the `eq` branch; `ops` is a comparison
object `{mongoOp: value, ...}`; `valueWithProps` models the corner where a
non-`eq` operator assigns a property onto an object-typed equality value
(a `Date`/`RegExp`) instead of replacing it (filter-parser lines 227-230). -/
inductive FilterEntry where
  | value (v : JSValue)
  | ops (m : List (String × JSValue))
  | valueWithProps (v : JSValue) (m : List (String × JSValue))
  deriving DecidableEq, Repr

/-- The filter object under construction, in insertion order. -/
abbrev Filter := List (String × FilterEntry)

/-- First-match association-list lookup (JS property read). -/
def getKey {α : Type} : List (String × α) → String → Option α
  | [], _ => none
  | (k', v) :: rest, k => if k' = k then some v else getKey rest k

/-- JS property assignment on an object modelled as an association list:
overwrite in place if the key exists, else append. -/
def setKey {α : Type} : List (String × α) → String → α → List (String × α)
  | [], k, v => [(k, v)]
  | (k', v') :: rest, k, v =>
      if k' = k then (k, v) :: rest else (k', v') :: setKey rest k v

/-- Typed errors mirroring `src/utils/errors.ts`. -/
inductive ApiError where
  | badRequest (message : String)
  | validation (message : String)
  | unauthorized (message : String)
  | forbidden (message : String)
  | notFound (message : String)
  | internal (message : String)
  deriving DecidableEq, Repr

def ApiError.statusCode : ApiError → Nat
  | .badRequest _ => 400
  | .validation _ => 400
  | .unauthorized _ => 401
  | .forbidden _ => 403
  | .notFound _ => 404
  | .internal _ => 500

def ApiError.code : ApiError → String
  | .badRequest _ => "BAD_REQUEST"
  | .validation _ => "VALIDATION_ERROR"
  | .unauthorized _ => "UNAUTHORIZED"
  | .forbidden _ => "FORBIDDEN"
  | .notFound _ => "NOT_FOUND"
  | .internal _ => "INTERNAL_ERROR"

/-- Is the error a `BadRequestError`? -/
def ApiError.isBadRequest : ApiError → Bool
  | .badRequest _ => true
  | _ => false

/-! ## Numeric and date primitives -/

/-- Decimal digit run to a natural number. -/
def digitsToNat (cs : List Char) : Nat :=
  cs.foldl (fun n c => 10 * n + (c.toNat - '0'.toNat)) 0

/-- The auto-detect numeric pattern of filter-parser line 296:
regex `^-?\d+(\.\d+)?$` (anchored both ends). -/
def decimalMatch (s : String) : Bool :=
  let cs := match s.data with
    | '-' :: rest => rest
    | cs => cs
  let ds := cs.takeWhile Char.isDigit
  let rest := cs.dropWhile Char.isDigit
  !ds.isEmpty &&
    (rest.isEmpty ||
      (match rest with
       | '.' :: fs => !fs.isEmpty && fs.all Char.isDigit
       | _ => false))

/-- Value of a string matching `decimalMatch` under JS `Number`. -/
def parseDecimal (s : String) : ℚ :=
  let (neg, cs) : Bool × List Char := match s.data with
    | '-' :: rest => (true, rest)
    | cs => (false, cs)
  let ip := cs.takeWhile Char.isDigit
  let rest := cs.dropWhile Char.isDigit
  let fp : List Char := match rest with
    | '.' :: fs => fs
    | _ => []
  let q : ℚ := (digitsToNat ip : ℚ) + (digitsToNat fp : ℚ) / ((10 : ℚ) ^ fp.length)
  if neg then -q else q

/-- Model of JS `Number(string)` restricted to finite decimal literals:
whitespace-trimmed, the empty string is `0`, optional sign, integer and/or
fraction digits, optional decimal exponent.  Hex/octal/binary/`Infinity`
forms are outside the model and map to `none` (NaN), as does any other
non-numeric string. -/
def jsNumber (s : String) : Option ℚ :=
  let t := jsTrim s
  if t = "" then some 0
  else
    let (sgn, cs) : ℚ × List Char := match t.data with
      | '-' :: rest => (-1, rest)
      | '+' :: rest => (1, rest)
      | cs => (1, cs)
    let ip := cs.takeWhile Char.isDigit
    let rest1 := cs.dropWhile Char.isDigit
    let (fp, rest2) : List Char × List Char := match rest1 with
      | '.' :: r => (r.takeWhile Char.isDigit, r.dropWhile Char.isDigit)
      | _ => ([], rest1)
    if ip.isEmpty && fp.isEmpty then none
    else
      let mant : ℚ := (digitsToNat ip : ℚ) + (digitsToNat fp : ℚ) / ((10 : ℚ) ^ fp.length)
      match rest2 with
      | [] => some (sgn * mant)
      | e :: r =>
        if e = 'e' || e = 'E' then
          let (esgn, ecs) : Bool × List Char := match r with
            | '-' :: r' => (true, r')
            | '+' :: r' => (false, r')
            | r' => (false, r')
          if ecs.isEmpty || !ecs.all Char.isDigit then none
          else
            let ex : Int := if esgn then -(digitsToNat ecs : Int) else (digitsToNat ecs : Int)
            some (sgn * mant * (10 : ℚ) ^ ex)
        else none

/-- Model of JS `parseInt(x, 10)`: convert to string, skip leading
whitespace, optional sign, then the longest digit prefix; `none` models NaN. -/
def jsParseInt (v : QVal) : Option Int :=
  let cs := (jsString v).data.dropWhile isJsSpace
  let (sgn, cs) : Int × List Char := match cs with
    | '-' :: r => (-1, r)
    | '+' :: r => (1, r)
    | r => (1, r)
  let ds := cs.takeWhile Char.isDigit
  if ds.isEmpty then none else some (sgn * (digitsToNat ds : Int))

/-- Model of `parseInt` applied to a possibly-absent query parameter
(`parseInt(undefined, 10)` is NaN). -/
def jsParseIntOpt (v : Option QVal) : Option Int :=
  jsParseInt (v.getD .undef)

/-- The ISO-date auto-detect pattern of filter-parser line 305:
regex `^\d{4}-\d{2}-\d{2}(T\d{2}:\d{2}:\d{2})?` — an unanchored-at-the-end
prefix test, so only the `YYYY-MM-DD` prefix is constrained (the optional
group can always match the empty string). -/
def isoDatePrefixMatch (s : String) : Bool :=
  match s.data with
  | y1 :: y2 :: y3 :: y4 :: '-' :: m1 :: m2 :: '-' :: d1 :: d2 :: _ =>
      [y1, y2, y3, y4, m1, m2, d1, d2].all Char.isDigit
  | _ => false

/-! ## Filter parser (`src/engine/filter-parser.ts`) -/

/-- The ten supported double-underscore operators. -/
inductive FilterOp where
  | eq | ne | gt | gte | lt | lte | opIn | opNin | like | opExists
  deriving DecidableEq, Repr

/-- Embeds `OPERATOR_MAP`: supported operators to MongoDB operators. -/
def FilterOp.mongoOp : FilterOp → String
  | .eq => "$eq"
  | .ne => "$ne"
  | .gt => "$gt"
  | .gte => "$gte"
  | .lt => "$lt"
  | .lte => "$lte"
  | .opIn => "$in"
  | .opNin => "$nin"
  | .like => "$regex"
  | .opExists => "$exists"

/-- Membership test `operator in OPERATOR_MAP`, returning the parsed
operator. -/
def filterOpOf? (s : String) : Option FilterOp :=
  if s = "eq" then some .eq
  else if s = "ne" then some .ne
  else if s = "gt" then some .gt
  else if s = "gte" then some .gte
  else if s = "lt" then some .lt
  else if s = "lte" then some .lte
  else if s = "in" then some .opIn
  else if s = "nin" then some .opNin
  else if s = "like" then some .like
  else if s = "exists" then some .opExists
  else none

/-- Embeds `RESERVED_PARAMS`: query parameters never treated as filters. -/
def reservedParams : List String := ["page", "limit", "sort", "fields", "filter"]

def DEFAULT_MAX_REGEX_LENGTH : Nat := 100
def DEFAULT_MAX_FILTERS : Nat := 20

/-- Schema adapter surface used by the parser (`getFields`, `getFieldType`). -/
structure SchemaAdapterM where
  getFields : List String
  getFieldType : String → FieldType

/-- Embeds `QueryConfig` from `src/types/query.ts`. -/
structure QueryConfig where
  allowedFilters : Option (List String) := none
  allowedSorts : Option (List String) := none
  defaultSort : Option String := none
  defaultLimit : Option Int := none
  maxLimit : Option Int := none

/-- Options accepted by `parseFilters`. -/
structure FilterParserOptions where
  adapter : Option SchemaAdapterM := none
  queryConfig : Option QueryConfig := none
  maxRegexLength : Option Nat := none
  maxFilters : Option Nat := none

/-- Model of `adapter?.getFieldType(field)`. -/
def fieldTypeFor (adapter : Option SchemaAdapterM) (field : String) : Option FieldType :=
  adapter.map (fun a => a.getFieldType field)

/-- Model of `queryConfig?.allowedFilters ?? adapter?.getFields()`. -/
def allowedFieldsFor (adapter : Option SchemaAdapterM) (queryConfig : Option QueryConfig) :
    Option (List String) :=
  (queryConfig.bind QueryConfig.allowedFilters).orElse
    (fun _ => adapter.map SchemaAdapterM.getFields)

/-- Embeds `validateField` (filter-parser lines 187-196). -/
def validateField (field : String) (allowedFields : Option (List String)) :
    Except ApiError Unit :=
  if startsWithDollar field then
    .error (.badRequest s!"Invalid filter field: {field}")
  else
    match allowedFields with
    | some fields =>
        if fields.contains field then .ok ()
        else .error (.badRequest s!"Filtering on field {field} is not allowed")
    | none => .ok ()

/-- Embeds `validateOperator` (filter-parser lines 201-207). -/
def validateOperator (op : String) : Except ApiError FilterOp :=
  match filterOpOf? op with
  | some fop => .ok fop
  | none =>
      .error (.badRequest
        s!"Unsupported filter operator: {op}. Supported: eq, ne, gt, gte, lt, lte, in, nin, like, exists")

/-- Model of `key.indexOf('__')` together with the two `substring` calls of
`parseParamKey`: the part before the first double underscore and the part
after it, or `none` when there is no occurrence. -/
def breakOnDunder : List Char → Option (List Char × List Char)
  | [] => none
  | c :: rest =>
      if c = '_' && rest.head? = some '_' then some ([], rest.drop 1)
      else (breakOnDunder rest).map (fun pr => (c :: pr.1, pr.2))

/-- Embeds `parseParamKey` (filter-parser lines 171-182): split at the first
double underscore. -/
def parseParamKey (key : String) : String × String :=
  match breakOnDunder key.data with
  | none => (key, "eq")
  | some (pre, post) => (⟨pre⟩, ⟨post⟩)

/-- Embeds the `escapeRegex` special characters (filter-parser line 317). -/
def isRegexSpecial (c : Char) : Bool :=
  c = '.' || c = '*' || c = '+' || c = '?' || c = '^' || c = '$' ||
  c = '\x7b' || c = '\x7d' || c = '(' || c = ')' || c = '|' || c = '[' ||
  c = ']' || c = '\\'

def escapeRegexChars : List Char → List Char
  | [] => []
  | c :: rest =>
      if isRegexSpecial c then '\\' :: c :: escapeRegexChars rest
      else c :: escapeRegexChars rest

/-- Embeds `escapeRegex` (filter-parser lines 316-318): prefix every special
character with a backslash. -/
def escapeRegex (s : String) : String :=
  ⟨escapeRegexChars s.data⟩

/-- Model of `String(raw).split(',').map(s => s.trim())`. -/
def splitCommaTrim (s : String) : List String :=
  (splitComma s).map jsTrim

/-- Embeds the `coerceSingleValue` auto-detect branch (filter-parser lines 294-310). -/
def autoDetect (dp : String → Option Int) (str : String) : JSPrim :=
  if decimalMatch str then .num (parseDecimal str)
  else if str = "true" then .bool true
  else if str = "false" then .bool false
  else if isoDatePrefixMatch str then
    match dp str with
    | some ms => .date ms
    | none => .str str
  else .str str

/-- Embeds `coerceSingleValue` (filter-parser lines 273-311).  When the declared
field type is known the typed coercion is attempted first; on failure
(`break` out of the switch) control falls through to the auto-detect path. -/
def coerceSingleValue (dp : String → Option Int) (raw : QVal)
    (fieldType : Option FieldType) : JSPrim :=
  let str := jsString raw
  let typed : Option JSPrim :=
    match fieldType with
    | some .number => (jsNumber str).map JSPrim.num
    | some .boolean =>
        if str = "true" || str = "1" then some (.bool true)
        else if str = "false" || str = "0" then some (.bool false)
        else none
    | some .date => (dp str).map JSPrim.date
    | _ => none
  match typed with
  | some v => v
  | none => autoDetect dp str

/-- Embeds `coerceValue` (filter-parser lines 237-268). -/
def coerceValue (dp : String → Option Int) (raw : QVal) (op : FilterOp)
    (fieldType : Option FieldType) (maxRegexLength : Nat) : Except ApiError JSValue :=
  match op with
  | .opIn | .opNin =>
      let items := splitCommaTrim (jsString raw)
      .ok (.arr (items.map (fun item => coerceSingleValue dp (.str item) fieldType)))
  | .opExists =>
      .ok (.prim (.bool (qvalIsStr raw "true" || qvalIsStr raw "1")))
  | .like =>
      let pattern := jsString raw
      if pattern.length > maxRegexLength then
        .error (.badRequest s!"Regex pattern too long. Maximum length: {maxRegexLength}")
      else
        .ok (.regexI (escapeRegex pattern))
  | _ => .ok (.prim (coerceSingleValue dp raw fieldType))

/-- Embeds `applyFilter` (filter-parser lines 212-232). -/
def applyFilter (dp : String → Option Int) (filter : Filter) (field : String)
    (op : FilterOp) (rawValue : QVal) (fieldType : Option FieldType)
    (maxRegexLength : Nat) : Except ApiError Filter :=
  match coerceValue dp rawValue op fieldType maxRegexLength with
  | .error e => .error e
  | .ok value =>
    match op with
    | .eq => .ok (setKey filter field (.value value))
    | _ =>
        match getKey filter field with
        | some (.ops m) =>
            .ok (setKey filter field (.ops (setKey m op.mongoOp value)))
        | some (.valueWithProps v m) =>
            .ok (setKey filter field (.valueWithProps v (setKey m op.mongoOp value)))
        | some (.value v) =>
            if v.isObject then
              .ok (setKey filter field (.valueWithProps v [(op.mongoOp, value)]))
            else
              .ok (setKey filter field (.ops [(op.mongoOp, value)]))
        | none => .ok (setKey filter field (.ops [(op.mongoOp, value)]))

/-- Inner loop of the bracket syntax (filter-parser lines 126-134): the
operator entries of `filter[field]`. -/
def processBracketOps (dp : String → Option Int) (adapter : Option SchemaAdapterM)
    (maxRegexLength maxFilters : Nat) :
    Filter → Nat → String → List (String × QVal) → Except ApiError (Filter × Nat)
  | filter, count, _, [] => .ok (filter, count)
  | filter, count, field, (op, val) :: rest =>
      let count := count + 1
      if count > maxFilters then
        .error (.badRequest s!"Too many filters. Maximum allowed: {maxFilters}")
      else
        match validateOperator op with
        | .error e => .error e
        | .ok fop =>
          match applyFilter dp filter field fop val (fieldTypeFor adapter field) maxRegexLength with
          | .error e => .error e
          | .ok filter => processBracketOps dp adapter maxRegexLength maxFilters filter count field rest

/-- Outer loop of the bracket syntax (filter-parser lines 121-144). -/
def processBracketFields (dp : String → Option Int) (adapter : Option SchemaAdapterM)
    (allowedFields : Option (List String)) (maxRegexLength maxFilters : Nat) :
    Filter → Nat → List (String × QVal) → Except ApiError (Filter × Nat)
  | filter, count, [] => .ok (filter, count)
  | filter, count, (field, ops) :: rest =>
      match validateField field allowedFields with
      | .error e => .error e
      | .ok _ =>
        match ops with
        | .obj opEntries =>
            match processBracketOps dp adapter maxRegexLength maxFilters filter count field opEntries with
            | .error e => .error e
            | .ok fc =>
                processBracketFields dp adapter allowedFields maxRegexLength maxFilters fc.1 fc.2 rest
        | _ =>
            let count := count + 1
            if count > maxFilters then
              .error (.badRequest s!"Too many filters. Maximum allowed: {maxFilters}")
            else
              match applyFilter dp filter field .eq ops (fieldTypeFor adapter field) maxRegexLength with
              | .error e => .error e
              | .ok filter =>
                  processBracketFields dp adapter allowedFields maxRegexLength maxFilters filter count rest

/-- Loop over the simple and suffix-operator params (filter-parser
lines 147-161). -/
def processSimpleParams (dp : String → Option Int) (adapter : Option SchemaAdapterM)
    (allowedFields : Option (List String)) (maxRegexLength maxFilters : Nat) :
    Filter → Nat → List (String × QVal) → Except ApiError Filter
  | filter, _, [] => .ok filter
  | filter, count, (key, value) :: rest =>
      if reservedParams.contains key then
        processSimpleParams dp adapter allowedFields maxRegexLength maxFilters filter count rest
      else if isEmptyOrUndef value then
        processSimpleParams dp adapter allowedFields maxRegexLength maxFilters filter count rest
      else
        let (field, opStr) := parseParamKey key
        match validateField field allowedFields with
        | .error e => .error e
        | .ok _ =>
          let count := count + 1
          if count > maxFilters then
            .error (.badRequest s!"Too many filters. Maximum allowed: {maxFilters}")
          else
            match validateOperator opStr with
            | .error e => .error e
            | .ok fop =>
              match applyFilter dp filter field fop value (fieldTypeFor adapter field) maxRegexLength with
              | .error e => .error e
              | .ok filter =>
                  processSimpleParams dp adapter allowedFields maxRegexLength maxFilters filter count rest

/-- Embeds `parseFilters` (filter-parser lines 110-164). -/
def parseFilters (dp : String → Option Int) (query : List (String × QVal))
    (options : FilterParserOptions) : Except ApiError Filter :=
  let maxRegexLength := options.maxRegexLength.getD DEFAULT_MAX_REGEX_LENGTH
  let maxFilters := options.maxFilters.getD DEFAULT_MAX_FILTERS
  let allowedFields := allowedFieldsFor options.adapter options.queryConfig
  let bracket : Except ApiError (Filter × Nat) :=
    match getKey query "filter" with
    | some (.obj entries) =>
        processBracketFields dp options.adapter allowedFields maxRegexLength maxFilters [] 0 entries
    | _ => .ok ([], 0)
  match bracket with
  | .error e => .error e
  | .ok fc =>
      processSimpleParams dp options.adapter allowedFields maxRegexLength maxFilters fc.1 fc.2 query

/-! ## Query builder (`src/engine/query-builder.ts`) -/

def DEFAULT_PAGE : Int := 1
def DEFAULT_LIMIT : Int := 10
def DEFAULT_MAX_LIMIT : Int := 100

/-- Falsiness of a possibly-absent query parameter (`!sortParam` /
`!fieldsParam` guards): absent, `undefined` and the empty string are falsy. -/
def isFalsyParam : Option QVal → Bool
  | none => true
  | some .undef => true
  | some (.str s) => s = ""
  | some (.obj _) => false

/-- Loop body of `parseSort` (query-builder lines 464-485). -/
def sortLoop (allowedSorts : Option (List String)) :
    List (String × Int) → List String → Except ApiError (List (String × Int))
  | sort, [] => .ok sort
  | sort, field :: rest =>
      if field = "" then sortLoop allowedSorts sort rest
      else
        let fieldName := if startsWithChar '-' field then dropFirstChar field else field
        let direction : Int := if startsWithChar '-' field then -1 else 1
        if startsWithDollar fieldName then
          .error (.badRequest s!"Invalid sort field: {fieldName}")
        else
          match allowedSorts with
          | some allowed =>
              if allowed.contains fieldName then
                sortLoop allowedSorts (setKey sort fieldName direction) rest
              else .error (.badRequest s!"Sorting by {fieldName} is not allowed")
          | none => sortLoop allowedSorts (setKey sort fieldName direction) rest

/-- Embeds `parseSort` (query-builder lines 445-488).  Array-valued sort
parameters are outside the model; an object-valued parameter would raise a
TypeError in JS, modelled as an internal error. -/
def parseSort (sortParam0 : Option QVal) (queryConfig : Option QueryConfig)
    (adapter : Option SchemaAdapterM) : Except ApiError (List (String × Int)) :=
  let sortParam : Option QVal :=
    if isFalsyParam sortParam0 then
      match queryConfig.bind QueryConfig.defaultSort with
      | some ds => if ds = "" then sortParam0 else some (.str ds)
      | none => sortParam0
    else sortParam0
  if isFalsyParam sortParam then .ok []
  else
    match sortParam with
    | some (.str s) =>
        let fields := splitCommaTrim s
        let allowedSorts :=
          (queryConfig.bind QueryConfig.allowedSorts).orElse
            (fun _ => adapter.map SchemaAdapterM.getFields)
        sortLoop allowedSorts [] fields
    | _ => .error (.internal "sortParam.split is not a function")

/-- Result of `parsePagination`. -/
structure PaginationResult where
  skip : Int
  limit : Int
  page : Int
  deriving DecidableEq, Repr

/-- Embeds `parsePagination` (query-builder lines 493-508). -/
def parsePagination (queryParams : List (String × QVal)) (defaultLimit maxLimit : Int) :
    PaginationResult :=
  let page0 := jsParseIntOpt (getKey queryParams "page")
  let limit0 := jsParseIntOpt (getKey queryParams "limit")
  let page : Int := match page0 with
    | none => DEFAULT_PAGE
    | some p => if p < 1 then DEFAULT_PAGE else p
  let limit : Int := match limit0 with
    | none => defaultLimit
    | some l => if l < 1 then defaultLimit else l
  let limit := if limit > maxLimit then maxLimit else limit
  { skip := (page - 1) * limit, limit := limit, page := page }

/-- Loop body of `parseProjection` (query-builder lines 527-540). -/
def projLoop (schemaFields : Option (List String)) :
    List (String × Nat) → List String → Except ApiError (List (String × Nat))
  | proj, [] => .ok proj
  | proj, field :: rest =>
      if field = "" then projLoop schemaFields proj rest
      else if startsWithDollar field then
        .error (.badRequest s!"Invalid projection field: {field}")
      else
        match schemaFields with
        | some fields =>
            if fields.contains field then projLoop schemaFields (setKey proj field 1) rest
            else .error (.badRequest s!"Field {field} does not exist in schema")
        | none => projLoop schemaFields (setKey proj field 1) rest

/-- Embeds `parseProjection` (query-builder lines 514-543).  Array-valued `fields`
parameters are outside the model. -/
def parseProjection (fieldsParam : Option QVal) (adapter : Option SchemaAdapterM) :
    Except ApiError (Option (List (String × Nat))) :=
  if isFalsyParam fieldsParam then .ok none
  else
    match fieldsParam with
    | some (.str s) =>
        match projLoop (adapter.map SchemaAdapterM.getFields) [] (splitCommaTrim s) with
        | .error e => .error e
        | .ok proj => .ok (if proj.isEmpty then none else some proj)
    | _ => .error (.internal "fieldsParam.split is not a function")

/-- The query descriptor `MongoQuery` from `src/types/query.ts`. -/
structure MongoQuery where
  filter : Filter
  sort : Option (List (String × Int)) := none
  skip : Option Int := none
  limit : Option Int := none
  projection : Option (List (String × Nat)) := none
  deriving DecidableEq, Repr

/-- Options accepted by `buildQuery`. -/
structure QueryBuilderOptions where
  adapter : Option SchemaAdapterM := none
  queryConfig : Option QueryConfig := none
  defaultLimit : Option Int := none
  maxLimit : Option Int := none
  maxRegexLength : Option Nat := none

/-- Effective default limit of `buildQuery` (destructuring default
`defaultLimit = queryConfig?.defaultLimit ?? DEFAULT_LIMIT`). -/
def effectiveDefaultLimit (options : QueryBuilderOptions) : Int :=
  options.defaultLimit.getD ((options.queryConfig.bind QueryConfig.defaultLimit).getD DEFAULT_LIMIT)

/-- Effective maximum limit of `buildQuery` (destructuring default
`maxLimit = queryConfig?.maxLimit ?? DEFAULT_MAX_LIMIT`). -/
def effectiveMaxLimit (options : QueryBuilderOptions) : Int :=
  options.maxLimit.getD ((options.queryConfig.bind QueryConfig.maxLimit).getD DEFAULT_MAX_LIMIT)

/-- Embeds `buildQuery` (query-builder lines 408-439). -/
def buildQuery (dp : String → Option Int) (queryParams : List (String × QVal))
    (options : QueryBuilderOptions) : Except ApiError MongoQuery :=
  match parseFilters dp queryParams
      { adapter := options.adapter, queryConfig := options.queryConfig,
        maxRegexLength := options.maxRegexLength, maxFilters := none } with
  | .error e => .error e
  | .ok filter =>
    match parseSort (getKey queryParams "sort") options.queryConfig options.adapter with
    | .error e => .error e
    | .ok sort =>
      let pg := parsePagination queryParams (effectiveDefaultLimit options) (effectiveMaxLimit options)
      match parseProjection (getKey queryParams "fields") options.adapter with
      | .error e => .error e
      | .ok projection =>
          .ok { filter := filter
                sort := if sort.isEmpty then none else some sort
                skip := some pg.skip
                limit := some pg.limit
                projection := match projection with
                  | some p => if p.isEmpty then none else some p
                  | none => none }

/-- Pagination metadata (`src/types/query.ts`). -/
structure PaginationMeta where
  page : Int
  limit : Int
  total : Int
  totalPages : Int
  deriving DecidableEq, Repr

/-- Model of `Math.ceil(a / b)` for integers with `b > 0`; `b ≤ 0` (JS would give
`Infinity`/NaN) is outside the model and returns 0. -/
def jsCeilDiv (a b : Int) : Int :=
  if b ≤ 0 then 0 else -((-a).fdiv b)

/-- Embeds `buildPaginationMeta` (query-builder lines 548-559). -/
def buildPaginationMeta (total page limit : Int) : PaginationMeta :=
  { page := page, limit := limit, total := total, totalPages := jsCeilDiv total limit }

/-- Embeds `extractPagination` (query-builder lines 564-577).  The `Option`
arguments model JS default parameters: `undefined` selects the global
defaults 10 / 100. -/
def extractPagination (queryParams : List (String × QVal))
    (defaultLimit maxLimit : Option Int) : Int × Int :=
  let d := defaultLimit.getD DEFAULT_LIMIT
  let m := maxLimit.getD DEFAULT_MAX_LIMIT
  let page0 := jsParseIntOpt (getKey queryParams "page")
  let limit0 := jsParseIntOpt (getKey queryParams "limit")
  let page : Int := match page0 with
    | none => DEFAULT_PAGE
    | some p => if p < 1 then DEFAULT_PAGE else p
  let limit : Int := match limit0 with
    | none => d
    | some l => if l < 1 then d else l
  let limit := if limit > m then m else limit
  (page, limit)

/-! ## CRUD orchestrator (`crud-operations.ts`, mirrored by
`src/engine/crud-handlers.ts`)

Documents stored in the collection are an opaque type parameter `Doc`.
Lifecycle hooks are modelled as total functions mutating the hook context
(hook-thrown errors are outside these claims).  Each operation model
returns, besides the `OperationResult`, a trace of what reached the store
driver, so that "the store call never happened" is expressible. -/

/-- A JSON request body (for write operations). -/
inductive Json where
  | null
  | bool (b : Bool)
  | num (q : ℚ)
  | str (s : String)
  | arr (els : List Json)
  | obj (fields : List (String × Json))

/-- Model of the guard `typeof data !== 'object' || data === null || Array.isArray(data)`
(the patch body guard): only a plain keyed object passes. -/
def Json.isPlainObject : Json → Bool
  | .obj _ => true
  | _ => false

/-- The mutable hook context threaded through before/after stages
(`createCtx` in crud-operations lines 20-39), with the fields the
models use; `R` is the result type of the operation. -/
structure HookCtx (R : Type) where
  collection : String
  operation : String
  user : Option Json := none
  query : Option MongoQuery := none
  data : Option Json := none
  id : Option String := none
  result : Option R := none
  preventDefault : Bool := false

/-- Embeds `runHook` (crud-operations lines 44-61): absence of the hook is a
no-op; otherwise the hook transforms the context. -/
def runHookM {R : Type} (hook : Option (HookCtx R → HookCtx R)) (ctx : HookCtx R) :
    HookCtx R :=
  match hook with
  | some f => f ctx
  | none => ctx

/-- Per-collection hook set, restricted to the stages these models run.
In the source a single `beforeFind`/`afterFind` pair serves both the list
and the single-document get; because the two operations thread contexts
with differently-typed `result` fields, the model exposes the same source
hooks to the get operation under the names `beforeFindOne`/`afterFindOne`. -/
structure HooksM (Doc : Type) where
  beforeFind : Option (HookCtx (List Doc) → HookCtx (List Doc)) := none
  afterFind : Option (HookCtx (List Doc) → HookCtx (List Doc)) := none
  beforeFindOne : Option (HookCtx Doc → HookCtx Doc) := none
  afterFindOne : Option (HookCtx Doc → HookCtx Doc) := none
  beforeUpdate : Option (HookCtx Doc → HookCtx Doc) := none
  afterUpdate : Option (HookCtx Doc → HookCtx Doc) := none
  beforeDelete : Option (HookCtx Doc → HookCtx Doc) := none
  afterDelete : Option (HookCtx Doc → HookCtx Doc) := none

/-- Pagination defaults (`DefaultConfig.pagination`). -/
structure PaginationDefaults where
  limit : Option Int := none
  maxLimit : Option Int := none

/-- Security defaults (`DefaultConfig.security`). -/
structure SecurityDefaults where
  maxRegexLength : Option Nat := none

/-- Embeds `DefaultConfig` from `src/types/schema.ts` (the fields the engine reads). -/
structure DefaultsM where
  pagination : Option PaginationDefaults := none
  security : Option SecurityDefaults := none
  query : Option QueryConfig := none

/-- Per-collection configuration (the fields the operation models read). -/
structure CollectionConfigM (Doc : Type) where
  query : Option QueryConfig := none
  hooks : Option (HooksM Doc) := none

/-- The find/count store surface used by the list operation. -/
structure ListStore (Doc : Type) where
  find : Filter → List (String × Int) → Int → Int → List (String × Nat) → List Doc
  count : Filter → Int

/-- The arguments the list operation hands to the store driver:
`find(filter).sort(sort).skip(skip ?? 0).limit(limit ?? 10).select(projection ?? {})`. -/
structure ExecutedFind where
  filter : Filter
  sort : List (String × Int)
  skip : Int
  limit : Int
  projection : List (String × Nat)
  deriving DecidableEq, Repr

/-- Outcome of the list operation: the operation result (status code, data,
meta) or an error, plus the store call that was executed, if any. -/
structure ListOutcome (Doc : Type) where
  result : Except ApiError (Int × List Doc × Option PaginationMeta)
  executedFind : Option ExecutedFind

/-- Embeds `listDocuments` (crud-operations lines 66-113). -/
def listDocuments {Doc : Type} (dp : String → Option Int) (store : ListStore Doc)
    (adapter : Option SchemaAdapterM) (config : CollectionConfigM Doc)
    (defaults : Option DefaultsM) (collectionName : String) (user : Option Json)
    (rawQuery : List (String × QVal)) : ListOutcome Doc :=
  let built := buildQuery dp rawQuery
    { adapter := adapter
      queryConfig := (config.query).orElse (fun _ => defaults.bind DefaultsM.query)
      defaultLimit := defaults.bind (fun d => d.pagination.bind PaginationDefaults.limit)
      maxLimit := defaults.bind (fun d => d.pagination.bind PaginationDefaults.maxLimit)
      maxRegexLength := defaults.bind (fun d => d.security.bind SecurityDefaults.maxRegexLength) }
  match built with
  | .error e => { result := .error e, executedFind := none }
  | .ok mongoQuery =>
    let ctx : HookCtx (List Doc) :=
      { collection := collectionName, operation := "find", user := user,
        query := some mongoQuery }
    let ctx := runHookM (config.hooks.bind HooksM.beforeFind) ctx
    if ctx.preventDefault then
      { result := .ok (0, [], none), executedFind := none }
    else
      let query := ctx.query.getD mongoQuery
      let ef : ExecutedFind :=
        { filter := query.filter, sort := query.sort.getD [],
          skip := query.skip.getD 0, limit := query.limit.getD 10,
          projection := query.projection.getD [] }
      let docs := store.find ef.filter ef.sort ef.skip ef.limit ef.projection
      let total := store.count query.filter
      let pl := extractPagination rawQuery
        (defaults.bind (fun d => d.pagination.bind PaginationDefaults.limit))
        (defaults.bind (fun d => d.pagination.bind PaginationDefaults.maxLimit))
      let ctx := { ctx with result := some docs }
      let ctx := runHookM (config.hooks.bind HooksM.afterFind) ctx
      { result := .ok (200, ctx.result.getD docs, some (buildPaginationMeta total pl.1 pl.2)),
        executedFind := some ef }

/-- The projection actually passed to `select` by the single-document get,
or `none` when no `fields` parameter is present (crud-operations
lines 127-139, 145-146).  Entries that are empty after trimming or that
start with the reserved prefix are silently dropped, not rejected. -/
def getDocProjection (fieldsParam : Option QVal) : Option (List (String × Nat)) :=
  if isFalsyParam fieldsParam then none
  else
    match fieldsParam with
    | some (.str s) =>
        some (((splitComma s).map jsTrim).foldl
          (fun proj trimmed =>
            if trimmed ≠ "" && !startsWithDollar trimmed then setKey proj trimmed 1 else proj)
          [])
    | _ => none

/-- Outcome of the single-document get. -/
structure GetOutcome (Doc : Type) where
  result : Except ApiError (Int × Option Doc)
  executedFindById : Option (String × Option (List (String × Nat)))

/-- Embeds `getDocument` (crud-operations lines 118-155). -/
def getDocument {Doc : Type} (findById : String → Option Doc)
    (config : CollectionConfigM Doc) (collectionName : String) (user : Option Json)
    (id : String) (fieldsParam : Option QVal) : GetOutcome Doc :=
  let projection := getDocProjection fieldsParam
  let ctx : HookCtx Doc :=
    { collection := collectionName, operation := "find", user := user, id := some id }
  let ctx := runHookM (config.hooks.bind HooksM.beforeFindOne) ctx
  if ctx.preventDefault then
    { result := .ok (0, none), executedFindById := none }
  else
    match findById id with
    | none =>
        { result := .error (.notFound s!"{collectionName} with id {id} not found"),
          executedFindById := some (id, projection) }
    | some doc =>
        let ctx := { ctx with result := some doc }
        let ctx := runHookM (config.hooks.bind HooksM.afterFindOne) ctx
        { result := .ok (200, some (ctx.result.getD doc)),
          executedFindById := some (id, projection) }

/-- Outcome of the patch operation: the result plus the `$set` operand that
reached `findByIdAndUpdate`, if the store call happened. -/
structure PatchOutcome (Doc : Type) where
  result : Except ApiError (Int × Option Doc)
  executedSet : Option Json

/-- Embeds `patchDocument` (crud-operations lines 223-257). -/
def patchDocument {Doc : Type} (updateById : String → Json → Option Doc)
    (config : CollectionConfigM Doc) (collectionName : String) (user : Option Json)
    (id : String) (data : Json) : PatchOutcome Doc :=
  if !data.isPlainObject then
    { result := .error (.validation "Request body must be an object"), executedSet := none }
  else
    match data with
    | .obj fields =>
        match fields.find? (fun kv => startsWithDollar kv.1) with
        | some kv =>
            { result := .error (.validation s!"Invalid field name: {kv.1}"),
              executedSet := none }
        | none =>
            let ctx : HookCtx Doc :=
              { collection := collectionName, operation := "patch", user := user,
                id := some id, data := some data }
            let ctx := runHookM (config.hooks.bind HooksM.beforeUpdate) ctx
            if ctx.preventDefault then
              { result := .ok (0, none), executedSet := none }
            else
              let setOperand := ctx.data.getD data
              match updateById id setOperand with
              | none =>
                  { result := .error (.notFound s!"{collectionName} with id {id} not found"),
                    executedSet := some setOperand }
              | some doc =>
                  let ctx := { ctx with result := some doc }
                  let ctx := runHookM (config.hooks.bind HooksM.afterUpdate) ctx
                  { result := .ok (200, some (ctx.result.getD doc)),
                    executedSet := some setOperand }
    | _ => { result := .error (.validation "Request body must be an object"), executedSet := none }

/-- Outcome of the delete operation, with a trace of whether the store
delete was called and whether the after hook ran. -/
structure DeleteOutcome (Doc : Type) where
  result : Except ApiError (Int × Option Doc)
  storeDeleteCalled : Bool
  afterHookRan : Bool

/-- Embeds `deleteDocument` (crud-operations lines 262-281; the same skeleton as
`createDeleteHandler` in `src/engine/crud-handlers.ts` lines 320-355). -/
def deleteDocument {Doc : Type} (findByIdAndDelete : String → Option Doc)
    (config : CollectionConfigM Doc) (collectionName : String) (user : Option Json)
    (id : String) : DeleteOutcome Doc :=
  let ctx : HookCtx Doc :=
    { collection := collectionName, operation := "delete", user := user, id := some id }
  let ctx := runHookM (config.hooks.bind HooksM.beforeDelete) ctx
  if ctx.preventDefault then
    { result := .ok (0, none), storeDeleteCalled := false, afterHookRan := false }
  else
    match findByIdAndDelete id with
    | none =>
        { result := .error (.notFound s!"{collectionName} with id {id} not found"),
          storeDeleteCalled := true, afterHookRan := false }
    | some doc =>
        let ctx := { ctx with result := some doc }
        let ctx := runHookM (config.hooks.bind HooksM.afterDelete) ctx
        { result := .ok (200, some (ctx.result.getD doc)),
          storeDeleteCalled := true,
          afterHookRan := (config.hooks.bind HooksM.afterDelete).isSome }

/-! ## Permission checker (`src/core/permission-checker.ts`) and the hono
adapter permission gate (`src/adapters/framework/hono.ts`) -/

/-- A user carries an id and role labels (`src/types/hooks.ts`). -/
structure User where
  id : String := ""
  roles : Option (List String) := none

/-- A permission rule: the `'public'` marker, a role list, or a custom
predicate (`src/types/auth.ts`).  Predicates are modelled as total boolean
functions of the context pieces they receive. -/
inductive Permission where
  | publicMarker
  | roles (rs : List String)
  | predicate (f : User → String → String → Bool)

/-- Per-operation permission configuration for a collection. -/
structure PermissionConfig where
  list : Option Permission := none
  get : Option Permission := none
  create : Option Permission := none
  update : Option Permission := none
  patch : Option Permission := none
  delete : Option Permission := none

/-- Model of `permissions[routeOp]`. -/
def PermissionConfig.forOp (p : PermissionConfig) (routeOp : String) : Option Permission :=
  if routeOp = "list" then p.list
  else if routeOp = "get" then p.get
  else if routeOp = "create" then p.create
  else if routeOp = "update" then p.update
  else if routeOp = "patch" then p.patch
  else if routeOp = "delete" then p.delete
  else none

/-- Embeds `ROUTE_TO_CRUD` (permission-checker lines 8-15). -/
def routeToCrud (routeOp : String) : String :=
  if routeOp = "list" then "find"
  else if routeOp = "get" then "find"
  else if routeOp = "create" then "create"
  else if routeOp = "update" then "update"
  else if routeOp = "patch" then "patch"
  else if routeOp = "delete" then "delete"
  else routeOp

/-- Embeds `evaluatePermission` (permission-checker lines 51-65).  A role array
allows iff the user has a non-empty role set intersecting it; a function
rule delegates to the predicate; anything else — including the `'public'`
marker, which is neither an array nor a function — returns `false`. -/
def evaluatePermission (permission : Permission) (user : User) (collection : String)
    (operation : String) : Bool :=
  match permission with
  | .roles rs =>
      match user.roles with
      | none => false
      | some userRoles =>
          if userRoles.isEmpty then false
          else rs.any (fun role => userRoles.contains role)
  | .predicate f => f user collection operation
  | .publicMarker => false

/-- Embeds `checkPermissions` (permission-checker lines 21-46). -/
def checkPermissions (user : Option User) (collection : String) (routeOp : String)
    (permissions : Option PermissionConfig) : Except ApiError Unit :=
  match permissions with
  | none => .ok ()
  | some perms =>
      match perms.forOp routeOp with
      | none => .ok ()
      | some permission =>
          match user with
          | none => .error (.unauthorized "Authentication required")
          | some u =>
              if evaluatePermission permission u collection (routeToCrud routeOp) then .ok ()
              else .error (.forbidden "Access denied")

/-- Model of `config.permissions?.[op] === 'public'` (hono adapter line 157). -/
def isPublicOp (permissions : Option PermissionConfig) (routeOp : String) : Bool :=
  match permissions.bind (fun p => p.forOp routeOp) with
  | some .publicMarker => true
  | _ => false

/-- The permission gate of the hono adapter `createHandler`
(hono.ts lines 156-178): `checkPermissions` runs only when permissions are
configured and the operation is not marked public; the operation proceeds
iff no error is raised. -/
def honoPermissionGate (user : Option User) (collection : String) (routeOp : String)
    (permissions : Option PermissionConfig) : Except ApiError Unit :=
  if permissions.isSome && !isPublicOp permissions routeOp then
    checkPermissions user collection routeOp permissions
  else .ok ()

/-! ## Auxiliary definitions used by the verification statements -/

/-- A concrete date-parse instantiation (every string an invalid date) used
to evaluate the model on concrete inputs. -/
def noDateParse : String → Option Int := fun _ => none

/-- Does the typed-coercion switch of `coerceSingleValue` fail (fall
through via `break`) for a value of the given declared type?  Mirrors the
failure conditions of filter-parser lines 277-292; types without a case in
the switch always fall through. -/
def typedCoercionFails (dp : String → Option Int) (str : String) : FieldType → Bool
  | .number => (jsNumber str).isNone
  | .boolean => !(str = "true" || str = "1" || str = "false" || str = "0")
  | .date => (dp str).isNone
  | _ => true

/-- Characters of a regex pattern in which every special character is
escaped: a backslash always escapes the following character, and any
unescaped character is not special. -/
def escapedProperly : List Char → Bool
  | [] => true
  | c :: rest =>
      if c = '\\' then
        match rest with
        | [] => false
        | _ :: rest2 => escapedProperly rest2
      else !isRegexSpecial c && escapedProperly rest

/-- A before-delete hook that requests the short-circuit. -/
def pdHook : HookCtx Unit → HookCtx Unit := fun c => { c with preventDefault := true }

/-- A collection configuration whose only hook is `pdHook`. -/
def pdConfig : CollectionConfigM Unit := { hooks := some { beforeDelete := some pdHook } }

/-- A store with no documents and a count of 7, for exercising the list
operation. -/
def listStore7 : ListStore Unit := { find := fun _ _ _ _ _ => [], count := fun _ => 7 }

/-- A collection configuration with a per-collection maximum limit of 5. -/
def cfgMax5 : CollectionConfigM Unit := { query := some { maxLimit := some 5 } }

/-- A collection configuration whose before-find hook replaces the query
with one whose limit is 3. -/
def cfgHook3 : CollectionConfigM Unit :=
  { hooks := some { beforeFind := some (fun c =>
      { c with query := some { filter := [], limit := some 3 } }) } }

/-! ## Association-list lemmas -/

theorem getKey_setKey_self {α : Type} (l : List (String × α)) (k : String) (v : α) :
    getKey (setKey l k v) k = some v := by
  induction l with
  | nil => simp [setKey, getKey]
  | cons kv rest ih =>
      obtain ⟨k', v'⟩ := kv
      by_cases h : k' = k
      · simp [setKey, h, getKey]
      · simp [setKey, h, getKey, ih]

theorem getKey_setKey_ne {α : Type} (l : List (String × α)) (k k' : String) (v : α)
    (h : k' ≠ k) : getKey (setKey l k v) k' = getKey l k' := by
  induction l with
  | nil =>
      simp only [setKey, getKey]
      exact if_neg (Ne.symm h)
  | cons kv rest ih =>
      obtain ⟨k₀, v₀⟩ := kv
      by_cases h0 : k₀ = k
      · subst h0
        simp only [setKey, if_pos rfl, getKey, if_neg (Ne.symm h)]
      · simp only [setKey, if_neg h0, getKey]
        by_cases h1 : k₀ = k'
        · rw [if_pos h1, if_pos h1]
        · rw [if_neg h1, if_neg h1, ih]

theorem mem_setKey {α : Type} (l : List (String × α)) (k : String) (v : α) :
    ∀ kv ∈ setKey l k v, kv.1 = k ∨ kv ∈ l := by
  induction l with
  | nil =>
      intro kv hkv
      simp only [setKey, List.mem_singleton] at hkv
      left; rw [hkv]
  | cons kv₀ rest ih =>
      obtain ⟨k₀, v₀⟩ := kv₀
      intro kv hkv
      by_cases h : k₀ = k
      · simp only [setKey, if_pos h] at hkv
        rcases List.mem_cons.mp hkv with h1 | h1
        · left; rw [h1]
        · right; exact List.mem_cons_of_mem _ h1
      · simp only [setKey, if_neg h] at hkv
        rcases List.mem_cons.mp hkv with h1 | h1
        · right; rw [h1]; exact List.mem_cons_self _ _
        · rcases ih kv h1 with h2 | h2
          · left; exact h2
          · right; exact List.mem_cons_of_mem _ h2

theorem setKey_keys_pred {α : Type} (p : String → Prop) (l : List (String × α))
    (k : String) (v : α) (hl : ∀ kv ∈ l, p kv.1) (hk : p k) :
    ∀ kv ∈ setKey l k v, p kv.1 := by
  intro kv hkv
  rcases mem_setKey l k v kv hkv with h | h
  · rw [h]; exact hk
  · exact hl kv h

/-! ## Error-classification lemmas: every error raised inside the filter
parser is a `BadRequestError` -/

theorem validateField_error_isBadRequest {field : String} {af : Option (List String)}
    {e : ApiError} (h : validateField field af = .error e) : e.isBadRequest = true := by
  unfold validateField at h
  split at h
  · cases h; rfl
  · split at h
    · split at h
      · cases h
      · cases h; rfl
    · cases h

theorem validateOperator_error_isBadRequest {op : String} {e : ApiError}
    (h : validateOperator op = .error e) : e.isBadRequest = true := by
  unfold validateOperator at h
  split at h
  · cases h
  · cases h; rfl

theorem coerceValue_error_isBadRequest {dp : String → Option Int} {raw : QVal}
    {op : FilterOp} {ft : Option FieldType} {mrl : Nat} {e : ApiError}
    (h : coerceValue dp raw op ft mrl = .error e) : e.isBadRequest = true := by
  cases op <;> simp only [coerceValue] at h <;> try cases h
  split at h
  · cases h; rfl
  · cases h

theorem applyFilter_error_isBadRequest {dp : String → Option Int} {f : Filter}
    {field : String} {op : FilterOp} {raw : QVal} {ft : Option FieldType}
    {mrl : Nat} {e : ApiError}
    (h : applyFilter dp f field op raw ft mrl = .error e) : e.isBadRequest = true := by
  unfold applyFilter at h
  split at h
  · cases h
    exact coerceValue_error_isBadRequest (by assumption)
  · split at h <;> try cases h
    split at h <;> try cases h
    split at h <;> cases h

theorem processBracketOps_error_isBadRequest (dp : String → Option Int)
    (adapter : Option SchemaAdapterM) (mrl mf : Nat) (field : String)
    (entries : List (String × QVal)) :
    ∀ {f : Filter} {c : Nat} {e : ApiError},
      processBracketOps dp adapter mrl mf f c field entries = .error e →
      e.isBadRequest = true := by
  induction entries with
  | nil =>
      intro f c e h
      exact absurd h (by simp [processBracketOps])
  | cons kv rest ih =>
      intro f c e h
      obtain ⟨op, val⟩ := kv
      simp only [processBracketOps] at h
      split at h
      · cases h; rfl
      · split at h
        · cases h; exact validateOperator_error_isBadRequest (by assumption)
        · split at h
          · cases h; exact applyFilter_error_isBadRequest (by assumption)
          · exact ih h

theorem processBracketFields_error_isBadRequest (dp : String → Option Int)
    (adapter : Option SchemaAdapterM) (af : Option (List String)) (mrl mf : Nat)
    (entries : List (String × QVal)) :
    ∀ {f : Filter} {c : Nat} {e : ApiError},
      processBracketFields dp adapter af mrl mf f c entries = .error e →
      e.isBadRequest = true := by
  induction entries with
  | nil =>
      intro f c e h
      exact absurd h (by simp [processBracketFields])
  | cons kv rest ih =>
      intro f c e h
      obtain ⟨field, ops⟩ := kv
      simp only [processBracketFields] at h
      split at h
      · cases h; exact validateField_error_isBadRequest (by assumption)
      · split at h
        · split at h
          · cases h
            exact processBracketOps_error_isBadRequest dp adapter mrl mf field _ (by assumption)
          · exact ih h
        · split at h
          · cases h; rfl
          · split at h
            · cases h; exact applyFilter_error_isBadRequest (by assumption)
            · exact ih h

theorem processSimpleParams_error_isBadRequest (dp : String → Option Int)
    (adapter : Option SchemaAdapterM) (af : Option (List String)) (mrl mf : Nat)
    (entries : List (String × QVal)) :
    ∀ {f : Filter} {c : Nat} {e : ApiError},
      processSimpleParams dp adapter af mrl mf f c entries = .error e →
      e.isBadRequest = true := by
  induction entries with
  | nil =>
      intro f c e h
      exact absurd h (by simp [processSimpleParams])
  | cons kv rest ih =>
      intro f c e h
      obtain ⟨key, value⟩ := kv
      simp only [processSimpleParams] at h
      split at h
      · exact ih h
      · split at h
        · exact ih h
        · split at h
          · cases h; exact validateField_error_isBadRequest (by assumption)
          · split at h
            · cases h; rfl
            · split at h
              · cases h; exact validateOperator_error_isBadRequest (by assumption)
              · split at h
                · cases h; exact applyFilter_error_isBadRequest (by assumption)
                · exact ih h

theorem parseFilters_error_isBadRequest {dp : String → Option Int}
    {query : List (String × QVal)} {options : FilterParserOptions} {e : ApiError}
    (h : parseFilters dp query options = .error e) : e.isBadRequest = true := by
  unfold parseFilters at h
  dsimp only at h
  split at h
  · rename_i e' heq
    cases h
    split at heq
    · exact processBracketFields_error_isBadRequest _ _ _ _ _ _ heq
    · cases heq
  · exact processSimpleParams_error_isBadRequest _ _ _ _ _ _ h

theorem ApiError.isBadRequest_exists {e : ApiError} (h : e.isBadRequest = true) :
    ∃ msg, e = .badRequest msg := by
  cases e <;> simp [ApiError.isBadRequest] at h
  exact ⟨_, rfl⟩

/-! ## Reserved-prefix rejection lemmas -/

theorem validateField_dollar {field : String} (af : Option (List String))
    (h : startsWithDollar field = true) :
    validateField field af = .error (.badRequest s!"Invalid filter field: {field}") := by
  unfold validateField
  rw [if_pos h]

theorem breakOnDunder_cons (c : Char) (cs : List Char)
    (hc : ¬(c = '_' && cs.head? = some '_') = true) :
    breakOnDunder (c :: cs) = (breakOnDunder cs).map (fun pr => (c :: pr.1, pr.2)) := by
  unfold breakOnDunder
  rw [if_neg hc]
  cases cs <;> rfl

theorem parseParamKey_dollar (key : String) (h : startsWithDollar key = true) :
    startsWithDollar (parseParamKey key).1 = true := by
  unfold startsWithDollar at h
  split at h
  · rename_i tail heq
    unfold parseParamKey
    rw [heq, breakOnDunder_cons _ _ (by simp)]
    cases breakOnDunder tail with
    | none =>
        dsimp only [Option.map]
        unfold startsWithDollar
        rw [heq]
        rfl
    | some pr =>
        dsimp only [Option.map]
        rfl
  · exact absurd h (by simp)

theorem processSimpleParams_dollar_error (dp : String → Option Int)
    (adapter : Option SchemaAdapterM) (af : Option (List String)) (mrl mf : Nat)
    (key : String) (value : QVal) (hk : startsWithDollar key = true)
    (hres : reservedParams.contains key = false) (hval : isEmptyOrUndef value = false) :
    ∀ (entries : List (String × QVal)) (f : Filter) (c : Nat), (key, value) ∈ entries →
      ∃ e, processSimpleParams dp adapter af mrl mf f c entries = .error e := by
  intro entries
  induction entries with
  | nil => intro f c hmem; cases hmem
  | cons kv rest ih =>
      intro f c hmem
      obtain ⟨k₀, v₀⟩ := kv
      rcases List.mem_cons.mp hmem with heq | hmem'
      · injection heq with hk0 hv0
        subst hk0
        subst hv0
        simp only [processSimpleParams, hres, hval, Bool.false_eq_true, if_false]
        rcases hpk : parseParamKey key with ⟨field, opStr⟩
        have hfd : startsWithDollar field = true := by
          have h1 := parseParamKey_dollar key hk
          rw [hpk] at h1
          exact h1
        dsimp only
        rw [validateField_dollar af hfd]
        exact ⟨_, rfl⟩
      · simp only [processSimpleParams]
        split
        · exact ih f c hmem'
        · split
          · exact ih f c hmem'
          · split
            · exact ⟨_, rfl⟩
            · split
              · exact ⟨_, rfl⟩
              · split
                · exact ⟨_, rfl⟩
                · split
                  · exact ⟨_, rfl⟩
                  · exact ih _ _ hmem'

theorem processBracketFields_dollar_error (dp : String → Option Int)
    (adapter : Option SchemaAdapterM) (af : Option (List String)) (mrl mf : Nat)
    (field : String) (ops : QVal) (hk : startsWithDollar field = true) :
    ∀ (entries : List (String × QVal)) (f : Filter) (c : Nat), (field, ops) ∈ entries →
      ∃ e, processBracketFields dp adapter af mrl mf f c entries = .error e := by
  intro entries
  induction entries with
  | nil => intro f c hmem; cases hmem
  | cons kv rest ih =>
      intro f c hmem
      obtain ⟨f₀, o₀⟩ := kv
      rcases List.mem_cons.mp hmem with heq | hmem'
      · injection heq with h1 h2
        subst h1
        subst h2
        simp only [processBracketFields]
        rw [validateField_dollar af hk]
        exact ⟨_, rfl⟩
      · simp only [processBracketFields]
        split
        · exact ⟨_, rfl⟩
        · split
          · split
            · exact ⟨_, rfl⟩
            · exact ih _ _ hmem'
          · split
            · exact ⟨_, rfl⟩
            · split
              · exact ⟨_, rfl⟩
              · exact ih _ _ hmem'

theorem parseFilters_simple_dollar {dp : String → Option Int}
    {query : List (String × QVal)} {options : FilterParserOptions} {key : String}
    {value : QVal} (hmem : (key, value) ∈ query) (hk : startsWithDollar key = true)
    (hres : reservedParams.contains key = false) (hval : isEmptyOrUndef value = false) :
    ∃ msg, parseFilters dp query options = .error (.badRequest msg) := by
  cases hp : parseFilters dp query options with
  | error e =>
      obtain ⟨msg, rfl⟩ := ApiError.isBadRequest_exists (parseFilters_error_isBadRequest hp)
      exact ⟨msg, rfl⟩
  | ok f =>
      exfalso
      unfold parseFilters at hp
      dsimp only at hp
      split at hp
      · simp at hp
      · rename_i fc heq
        obtain ⟨e, he⟩ := processSimpleParams_dollar_error dp options.adapter
          (allowedFieldsFor options.adapter options.queryConfig)
          (options.maxRegexLength.getD DEFAULT_MAX_REGEX_LENGTH)
          (options.maxFilters.getD DEFAULT_MAX_FILTERS)
          key value hk hres hval query fc.1 fc.2 hmem
        rw [he] at hp
        simp at hp

theorem parseFilters_bracket_dollar {dp : String → Option Int}
    {query : List (String × QVal)} {options : FilterParserOptions} {field : String}
    {ops : QVal} {entries : List (String × QVal)}
    (hfilter : getKey query "filter" = some (.obj entries))
    (hmem : (field, ops) ∈ entries) (hk : startsWithDollar field = true) :
    ∃ msg, parseFilters dp query options = .error (.badRequest msg) := by
  cases hp : parseFilters dp query options with
  | error e =>
      obtain ⟨msg, rfl⟩ := ApiError.isBadRequest_exists (parseFilters_error_isBadRequest hp)
      exact ⟨msg, rfl⟩
  | ok f =>
      exfalso
      unfold parseFilters at hp
      dsimp only at hp
      split at hp
      · simp at hp
      · rename_i fc heq
        rw [hfilter] at heq
        have heq2 : processBracketFields dp options.adapter
            (allowedFieldsFor options.adapter options.queryConfig)
            (options.maxRegexLength.getD DEFAULT_MAX_REGEX_LENGTH)
            (options.maxFilters.getD DEFAULT_MAX_FILTERS) [] 0 entries = .ok fc := heq
        obtain ⟨e, he⟩ := processBracketFields_dollar_error dp options.adapter
          (allowedFieldsFor options.adapter options.queryConfig)
          (options.maxRegexLength.getD DEFAULT_MAX_REGEX_LENGTH)
          (options.maxFilters.getD DEFAULT_MAX_FILTERS)
          field ops hk entries [] 0 hmem
        rw [he] at heq2
        simp at heq2

/-! ## No reserved-prefix field key survives into a successfully built
filter, sort, or projection -/

theorem validateField_ok_no_dollar {field : String} {af : Option (List String)} {u : Unit}
    (h : validateField field af = .ok u) : startsWithDollar field = false := by
  unfold validateField at h
  split at h
  · cases h
  · rename_i hcond
    simpa using hcond

theorem applyFilter_ok_pred {p : String → Prop} {dp : String → Option Int} {f : Filter}
    {field : String} {op : FilterOp} {raw : QVal} {ft : Option FieldType} {mrl : Nat}
    {f' : Filter} (h : applyFilter dp f field op raw ft mrl = .ok f')
    (hf : ∀ kv ∈ f, p kv.1) (hfield : p field) : ∀ kv ∈ f', p kv.1 := by
  unfold applyFilter at h
  split at h
  · cases h
  · split at h
    · cases h; exact setKey_keys_pred p f field _ hf hfield
    · split at h
      · cases h; exact setKey_keys_pred p f field _ hf hfield
      · cases h; exact setKey_keys_pred p f field _ hf hfield
      · split at h
        · cases h; exact setKey_keys_pred p f field _ hf hfield
        · cases h; exact setKey_keys_pred p f field _ hf hfield
      · cases h; exact setKey_keys_pred p f field _ hf hfield

theorem processBracketOps_ok_pred {p : String → Prop} (dp : String → Option Int)
    (adapter : Option SchemaAdapterM) (mrl mf : Nat) (field : String) (hfield : p field) :
    ∀ (entries : List (String × QVal)) (f : Filter) (c : Nat) (fc : Filter × Nat),
      processBracketOps dp adapter mrl mf f c field entries = .ok fc →
      (∀ kv ∈ f, p kv.1) → ∀ kv ∈ fc.1, p kv.1 := by
  intro entries
  induction entries with
  | nil =>
      intro f c fc h hf
      simp only [processBracketOps] at h
      cases h
      exact hf
  | cons kv rest ih =>
      intro f c fc h hf
      obtain ⟨op, val⟩ := kv
      simp only [processBracketOps] at h
      split at h
      · cases h
      · split at h
        · cases h
        · split at h
          · cases h
          · rename_i f₁ happ
            exact ih _ _ _ h (applyFilter_ok_pred happ hf hfield)

theorem processBracketFields_ok_no_dollar (dp : String → Option Int)
    (adapter : Option SchemaAdapterM) (af : Option (List String)) (mrl mf : Nat) :
    ∀ (entries : List (String × QVal)) (f : Filter) (c : Nat) (fc : Filter × Nat),
      processBracketFields dp adapter af mrl mf f c entries = .ok fc →
      (∀ kv ∈ f, startsWithDollar kv.1 = false) →
      ∀ kv ∈ fc.1, startsWithDollar kv.1 = false := by
  intro entries
  induction entries with
  | nil =>
      intro f c fc h hf
      simp only [processBracketFields] at h
      cases h
      exact hf
  | cons kv rest ih =>
      intro f c fc h hf
      obtain ⟨field, ops⟩ := kv
      simp only [processBracketFields] at h
      split at h
      · cases h
      · rename_i u hvf
        have hnd : startsWithDollar field = false := validateField_ok_no_dollar hvf
        split at h
        · split at h
          · cases h
          · rename_i fc₁ hops
            exact ih _ _ _ h
              (processBracketOps_ok_pred (p := fun k => startsWithDollar k = false)
                dp adapter mrl mf field hnd _ f c fc₁ hops hf)
        · split at h
          · cases h
          · split at h
            · cases h
            · rename_i f₁ happ
              exact ih _ _ _ h
                (applyFilter_ok_pred (p := fun k => startsWithDollar k = false) happ hf hnd)

theorem processSimpleParams_ok_no_dollar (dp : String → Option Int)
    (adapter : Option SchemaAdapterM) (af : Option (List String)) (mrl mf : Nat) :
    ∀ (entries : List (String × QVal)) (f : Filter) (c : Nat) (f' : Filter),
      processSimpleParams dp adapter af mrl mf f c entries = .ok f' →
      (∀ kv ∈ f, startsWithDollar kv.1 = false) →
      ∀ kv ∈ f', startsWithDollar kv.1 = false := by
  intro entries
  induction entries with
  | nil =>
      intro f c f' h hf
      simp only [processSimpleParams] at h
      cases h
      exact hf
  | cons kv rest ih =>
      intro f c f' h hf
      obtain ⟨key, value⟩ := kv
      simp only [processSimpleParams] at h
      split at h
      · exact ih _ _ _ h hf
      · split at h
        · exact ih _ _ _ h hf
        · split at h
          · cases h
          · rename_i u hvf
            have hnd := validateField_ok_no_dollar hvf
            split at h
            · cases h
            · split at h
              · cases h
              · split at h
                · cases h
                · rename_i f₁ happ
                  exact ih _ _ _ h
                    (applyFilter_ok_pred (p := fun k => startsWithDollar k = false) happ hf hnd)

theorem parseFilters_ok_no_dollar {dp : String → Option Int}
    {query : List (String × QVal)} {options : FilterParserOptions} {f : Filter}
    (h : parseFilters dp query options = .ok f) :
    ∀ kv ∈ f, startsWithDollar kv.1 = false := by
  unfold parseFilters at h
  dsimp only at h
  split at h
  · simp at h
  · rename_i fc heq
    have hfc : ∀ kv ∈ fc.1, startsWithDollar kv.1 = false := by
      split at heq
      · exact processBracketFields_ok_no_dollar _ _ _ _ _ _ _ _ _ heq
          (by intro kv hkv; cases hkv)
      · cases heq
        intro kv hkv
        cases hkv
    exact processSimpleParams_ok_no_dollar _ _ _ _ _ _ _ _ _ h hfc

/-! ## Sort and projection lemmas -/

theorem sortLoop_error_isBadRequest (as : Option (List String)) :
    ∀ (fields : List String) (sort : List (String × Int)) (e : ApiError),
      sortLoop as sort fields = .error e → e.isBadRequest = true := by
  intro fields
  induction fields with
  | nil =>
      intro sort e h
      exact absurd h (by simp [sortLoop])
  | cons field rest ih =>
      intro sort e h
      simp only [sortLoop] at h
      repeat' split at h
      all_goals first
        | exact ih _ _ h
        | (cases h; rfl)

theorem sortLoop_dollar_error (as : Option (List String)) (entry : String)
    (hd : startsWithDollar
        (if startsWithChar '-' entry then dropFirstChar entry else entry) = true) :
    ∀ (fields : List String) (sort : List (String × Int)), entry ∈ fields →
      ∃ e, sortLoop as sort fields = .error e := by
  intro fields
  induction fields with
  | nil => intro sort hmem; cases hmem
  | cons field rest ih =>
      intro sort hmem
      rcases List.mem_cons.mp hmem with heq | hmem'
      · subst heq
        have hne : ¬(entry = "") := by
          intro he
          rw [he] at hd
          exact absurd hd (by decide)
        simp only [sortLoop]
        repeat' split
        all_goals first
          | exact ⟨_, rfl⟩
          | simp_all
      · simp only [sortLoop]
        repeat' split
        all_goals first
          | exact ⟨_, rfl⟩
          | exact ih _ hmem'

theorem sortLoop_ok_no_dollar (as : Option (List String)) :
    ∀ (fields : List String) (sort sort' : List (String × Int)),
      sortLoop as sort fields = .ok sort' →
      (∀ kv ∈ sort, startsWithDollar kv.1 = false) →
      ∀ kv ∈ sort', startsWithDollar kv.1 = false := by
  intro fields
  induction fields with
  | nil =>
      intro sort sort' h hs
      simp only [sortLoop] at h
      cases h
      exact hs
  | cons field rest ih =>
      intro sort sort' h hs
      simp only [sortLoop] at h
      repeat' split at h
      all_goals first
        | exact ih _ _ h hs
        | cases h
        | (refine ih _ _ h (setKey_keys_pred (fun k => startsWithDollar k = false) _ _ _ hs ?_)
           simp_all)

theorem parseSort_str_dollar_error {s : String} {qc : Option QueryConfig}
    {adapter : Option SchemaAdapterM} {entry : String}
    (hmem : entry ∈ splitCommaTrim s)
    (hd : startsWithDollar
        (if startsWithChar '-' entry then dropFirstChar entry else entry) = true) :
    ∃ msg, parseSort (some (.str s)) qc adapter = .error (.badRequest msg) := by
  have hsne : ¬(s = "") := by
    intro he
    subst he
    rw [show splitCommaTrim "" = [""] from rfl, List.mem_singleton] at hmem
    subst hmem
    exact absurd hd (by decide)
  have hfalsy : isFalsyParam (some (.str s)) = false := by
    simp [isFalsyParam, hsne]
  obtain ⟨e, he⟩ := sortLoop_dollar_error
    ((qc.bind QueryConfig.allowedSorts).orElse (fun _ => adapter.map SchemaAdapterM.getFields))
    entry hd (splitCommaTrim s) [] hmem
  have hres : parseSort (some (.str s)) qc adapter = .error e := by
    simp only [parseSort, hfalsy, Bool.false_eq_true, if_false]
    exact he
  obtain ⟨msg, hmsg⟩ := ApiError.isBadRequest_exists (sortLoop_error_isBadRequest _ _ _ _ he)
  exact ⟨msg, by rw [hres, hmsg]⟩

theorem projLoop_error_isBadRequest (sf : Option (List String)) :
    ∀ (fields : List String) (proj : List (String × Nat)) (e : ApiError),
      projLoop sf proj fields = .error e → e.isBadRequest = true := by
  intro fields
  induction fields with
  | nil =>
      intro proj e h
      exact absurd h (by simp [projLoop])
  | cons field rest ih =>
      intro proj e h
      simp only [projLoop] at h
      repeat' split at h
      all_goals first
        | exact ih _ _ h
        | (cases h; rfl)

theorem projLoop_dollar_error (sf : Option (List String)) (entry : String)
    (hd : startsWithDollar entry = true) :
    ∀ (fields : List String) (proj : List (String × Nat)), entry ∈ fields →
      ∃ e, projLoop sf proj fields = .error e := by
  intro fields
  induction fields with
  | nil => intro proj hmem; cases hmem
  | cons field rest ih =>
      intro proj hmem
      rcases List.mem_cons.mp hmem with heq | hmem'
      · subst heq
        have hne : ¬(entry = "") := by
          intro he
          rw [he] at hd
          exact absurd hd (by decide)
        simp only [projLoop, if_neg hne, if_pos hd]
        exact ⟨_, rfl⟩
      · simp only [projLoop]
        repeat' split
        all_goals first
          | exact ⟨_, rfl⟩
          | exact ih _ hmem'

theorem projLoop_ok_no_dollar (sf : Option (List String)) :
    ∀ (fields : List String) (proj proj' : List (String × Nat)),
      projLoop sf proj fields = .ok proj' →
      (∀ kv ∈ proj, startsWithDollar kv.1 = false) →
      ∀ kv ∈ proj', startsWithDollar kv.1 = false := by
  intro fields
  induction fields with
  | nil =>
      intro proj proj' h hp
      simp only [projLoop] at h
      cases h
      exact hp
  | cons field rest ih =>
      intro proj proj' h hp
      simp only [projLoop] at h
      repeat' split at h
      all_goals first
        | exact ih _ _ h hp
        | cases h
        | (refine ih _ _ h (setKey_keys_pred (fun k => startsWithDollar k = false) _ _ _ hp ?_)
           simp_all)

theorem parseProjection_str_dollar_error {s : String} {adapter : Option SchemaAdapterM}
    {entry : String} (hmem : entry ∈ splitCommaTrim s)
    (hd : startsWithDollar entry = true) :
    ∃ msg, parseProjection (some (.str s)) adapter = .error (.badRequest msg) := by
  have hsne : ¬(s = "") := by
    intro he
    subst he
    rw [show splitCommaTrim "" = [""] from rfl, List.mem_singleton] at hmem
    subst hmem
    exact absurd hd (by decide)
  have hfalsy : isFalsyParam (some (.str s)) = false := by
    simp [isFalsyParam, hsne]
  obtain ⟨e, he⟩ := projLoop_dollar_error (adapter.map SchemaAdapterM.getFields) entry hd
    (splitCommaTrim s) [] hmem
  have hres : parseProjection (some (.str s)) adapter = .error e := by
    simp only [parseProjection, hfalsy, Bool.false_eq_true, if_false, he]
  obtain ⟨msg, hmsg⟩ := ApiError.isBadRequest_exists (projLoop_error_isBadRequest _ _ _ _ he)
  exact ⟨msg, by rw [hres, hmsg]⟩

/-! ## Single-get projection and patch-body lemmas -/

theorem getDocProjection_fold_no_dollar :
    ∀ (l : List String) (acc : List (String × Nat)),
      (∀ kv ∈ acc, startsWithDollar kv.1 = false) →
      ∀ kv ∈ l.foldl
          (fun proj trimmed =>
            if trimmed ≠ "" && !startsWithDollar trimmed then setKey proj trimmed 1 else proj)
          acc,
        startsWithDollar kv.1 = false := by
  intro l
  induction l with
  | nil => intro acc hacc; exact hacc
  | cons t rest ih =>
      intro acc hacc
      simp only [List.foldl_cons]
      by_cases hc : (t ≠ "" && !startsWithDollar t) = true
      · rw [if_pos hc]
        have hnd : startsWithDollar t = false := by
          rw [Bool.and_eq_true] at hc
          simpa using hc.2
        exact ih _ (setKey_keys_pred (fun k => startsWithDollar k = false) _ _ _ hacc hnd)
      · rw [if_neg hc]
        exact ih _ hacc

theorem getDocProjection_no_dollar {fieldsParam : Option QVal}
    {pr : List (String × Nat)} (h : getDocProjection fieldsParam = some pr) :
    ∀ kv ∈ pr, startsWithDollar kv.1 = false := by
  unfold getDocProjection at h
  split at h
  · cases h
  · split at h
    · cases h
      exact getDocProjection_fold_no_dollar _ [] (by intro kv hkv; cases hkv)
    · cases h

theorem patchDocument_dollar_error {Doc : Type} (updateById : String → Json → Option Doc)
    (config : CollectionConfigM Doc) (name : String) (user : Option Json) (id : String)
    (fields : List (String × Json)) (key : String) (v : Json)
    (hmem : (key, v) ∈ fields) (hk : startsWithDollar key = true) :
    (∃ msg, (patchDocument updateById config name user id (.obj fields)).result =
        .error (.validation msg)) ∧
    (patchDocument updateById config name user id (.obj fields)).executedSet = none := by
  have hfind : ∃ kv, fields.find? (fun kv => startsWithDollar kv.1) = some kv := by
    have : (fields.find? (fun kv => startsWithDollar kv.1)).isSome := by
      rw [List.find?_isSome]
      exact ⟨(key, v), hmem, hk⟩
    exact Option.isSome_iff_exists.mp this
  obtain ⟨kv, hkv⟩ := hfind
  have hpe : patchDocument updateById config name user id (.obj fields) =
      { result := .error (.validation s!"Invalid field name: {kv.1}"),
        executedSet := none } := by
    unfold patchDocument
    simp only [Json.isPlainObject, Bool.not_true, Bool.false_eq_true, if_false, hkv]
  rw [hpe]
  exact ⟨⟨_, rfl⟩, rfl⟩

theorem patchDocument_no_hooks_executedSet {Doc : Type}
    (updateById : String → Json → Option Doc) (name : String) (user : Option Json)
    (id : String) (fields : List (String × Json))
    (hno : ∀ kv ∈ fields, ¬startsWithDollar kv.1 = true) :
    (patchDocument updateById ({} : CollectionConfigM Doc) name user id
      (.obj fields)).executedSet = some (.obj fields) := by
  have hfind : fields.find? (fun kv => startsWithDollar kv.1) = none :=
    List.find?_eq_none.mpr hno
  unfold patchDocument
  simp only [Json.isPlainObject, Bool.not_true, Bool.false_eq_true, if_false, hfind]
  dsimp only [runHookM]
  split
  · rename_i hpd
    simp at hpd
  · split <;> rfl

theorem escapeRegexChars_escaped : ∀ cs : List Char, escapedProperly (escapeRegexChars cs) = true := by
  intro cs
  induction cs with
  | nil => rfl
  | cons c rest ih =>
      by_cases hc : isRegexSpecial c = true
      · simp only [escapeRegexChars, if_pos hc]
        unfold escapedProperly
        rw [if_pos rfl]
        exact ih
      · simp only [escapeRegexChars, if_neg hc]
        unfold escapedProperly
        have hne : ¬(c = '\\') := fun he => hc (by rw [he]; rfl)
        rw [if_neg hne, Bool.and_eq_true]
        exact ⟨by simpa using hc, ih⟩

theorem getKey_eq_none_of_not_mem {α : Type} :
    ∀ (l : List (String × α)) (k : String), ¬(k ∈ l.map Prod.fst) → getKey l k = none := by
  intro l
  induction l with
  | nil => intro k _; rfl
  | cons kv rest ih =>
      intro k h
      obtain ⟨k₀, v₀⟩ := kv
      simp only [List.map_cons, List.mem_cons] at h
      push_neg at h
      simp only [getKey]
      rw [if_neg (fun he => h.1 he.symm)]
      exact ih k h.2

theorem getKey_filter_nodup {α : Type} (p : String × α → Bool) :
    ∀ (l : List (String × α)) (k : String), (l.map Prod.fst).Nodup →
      getKey (l.filter p) k =
        (match getKey l k with
         | some v => if p (k, v) = true then some v else none
         | none => none) := by
  intro l
  induction l with
  | nil => intro k _; rfl
  | cons kv rest ih =>
      intro k hnd
      obtain ⟨k₀, v₀⟩ := kv
      simp only [List.map_cons, List.nodup_cons] at hnd
      by_cases hk : k₀ = k
      · subst hk
        have hnone : getKey (rest.filter p) k₀ = none := by
          apply getKey_eq_none_of_not_mem
          intro hmem
          obtain ⟨kv, hkv, hfst⟩ := List.mem_map.mp hmem
          exact hnd.1 (hfst ▸ List.mem_map_of_mem Prod.fst (List.mem_of_mem_filter hkv))
        by_cases hp : p (k₀, v₀) = true
        · rw [List.filter_cons, if_pos hp]
          simp [getKey, hp]
        · rw [List.filter_cons, if_neg hp, hnone]
          simp [getKey, hp]
      · have hrec := ih k hnd.2
        rw [List.filter_cons]
        by_cases hp : p (k₀, v₀) = true
        · rw [if_pos hp]
          simp only [getKey, if_neg hk]
          exact hrec
        · rw [if_neg hp, hrec]
          simp only [getKey, if_neg hk]

theorem processSimpleParams_filter_empties (dp : String → Option Int)
    (adapter : Option SchemaAdapterM) (af : Option (List String)) (mrl mf : Nat) :
    ∀ (entries : List (String × QVal)) (f : Filter) (c : Nat),
      processSimpleParams dp adapter af mrl mf f c entries =
        processSimpleParams dp adapter af mrl mf f c
          (entries.filter (fun kv => !isEmptyOrUndef kv.2)) := by
  intro entries
  induction entries with
  | nil => intro f c; rfl
  | cons kv rest ih =>
      intro f c
      obtain ⟨k, v⟩ := kv
      by_cases hemp : isEmptyOrUndef v = true
      · rw [List.filter_cons, if_neg (by simp [hemp])]
        simp only [processSimpleParams]
        split
        · exact ih f c
        · exact ih f c
      · rw [List.filter_cons, if_pos (by simpa using hemp)]
        simp only [processSimpleParams]
        repeat' split
        all_goals first
          | rfl
          | exact ih _ _

/-! ## Claim theorems -/

/-- C1: the claim (and spec section 4.3) says a permission rule equal to
the public marker allows the request unconditionally, raising neither the
authentication-required nor the access-denied failure.  The code's
`checkPermissions`/`evaluatePermission` have no case for the marker: a
`'public'` rule is truthy, so with no user the check raises
`UnauthorizedError`, and with a user present `evaluatePermission` (neither
an array nor a function) returns false, raising `ForbiddenError`.  Every
caller that reaches `checkPermissions` with a `'public'` rule — the express
router's permission middleware and the express framework adapter — denies.
Only the hono adapter's `createHandler` matches the claim, by skipping
`checkPermissions` entirely when the rule is the public marker. -/
theorem claim_C1_public_rule_denied :
    checkPermissions none "products" "list" (some { list := some .publicMarker }) =
      .error (.unauthorized "Authentication required")
    ∧ checkPermissions (some { id := "u1", roles := some ["admin"] }) "products" "list"
        (some { list := some .publicMarker }) = .error (.forbidden "Access denied")
    ∧ (ApiError.unauthorized "Authentication required").statusCode = 401
    ∧ (ApiError.forbidden "Access denied").statusCode = 403
    ∧ honoPermissionGate none "products" "list" (some { list := some .publicMarker }) =
        .ok () :=
  ⟨rfl, rfl, rfl, rfl, rfl⟩

/-- C3 counterexample: for the value "25" of a boolean-declared field the
typed coercion fails, yet the parser does not fall back to the original
string: the auto-detect path coerces it to the number 25. -/
theorem claim_C3_counterexample :
    typedCoercionFails noDateParse "25" .boolean = true
    ∧ coerceSingleValue noDateParse (.str "25") (some .boolean) = .num (parseDecimal "25")
    ∧ parseDecimal "25" = 25
    ∧ JSPrim.num (parseDecimal "25") ≠ JSPrim.str "25" := by
  refine ⟨rfl, rfl, ?_, fun h => JSPrim.noConfusion h⟩
  have h : parseDecimal "25" = ((25 : ℕ) : ℚ) + ((0 : ℕ) : ℚ) / ((10 : ℚ) ^ (0 : ℕ)) := rfl
  rw [h]
  norm_num

/-- C3 (amended): when the declared field type is known the parser coerces
to it (numeric string to the parsed number, boolean literals to boolean,
parseable date string to date); when that typed coercion fails the value
falls back to the auto-detection path used for unknown types — which may
coerce it to a number, boolean, or date — and remains the original string
only when no auto-detect pattern applies either. -/
theorem claim_C3_coercion_fallback (dp : String → Option Int) (raw : QVal)
    (ft : FieldType) (hfail : typedCoercionFails dp (jsString raw) ft = true) :
    coerceSingleValue dp raw (some ft) = autoDetect dp (jsString raw)
    ∧ (∀ q, jsNumber (jsString raw) = some q →
        coerceSingleValue dp raw (some .number) = .num q)
    ∧ (jsString raw = "true" ∨ jsString raw = "1" →
        coerceSingleValue dp raw (some .boolean) = .bool true)
    ∧ (jsString raw = "false" ∨ jsString raw = "0" →
        coerceSingleValue dp raw (some .boolean) = .bool false)
    ∧ (∀ ms, dp (jsString raw) = some ms →
        coerceSingleValue dp raw (some .date) = .date ms)
    ∧ (∀ s, decimalMatch s = false → ¬(s = "true") → ¬(s = "false") →
        isoDatePrefixMatch s = false → autoDetect dp s = .str s) := by
  have hstepN : coerceSingleValue dp raw (some .number) =
      match Option.map JSPrim.num (jsNumber (jsString raw)) with
      | some v => v
      | none => autoDetect dp (jsString raw) := rfl
  have hstepB : coerceSingleValue dp raw (some .boolean) =
      match (if (decide (jsString raw = "true") || decide (jsString raw = "1")) = true
             then some (JSPrim.bool true)
             else if (decide (jsString raw = "false") || decide (jsString raw = "0")) = true
             then some (JSPrim.bool false)
             else none : Option JSPrim) with
      | some v => v
      | none => autoDetect dp (jsString raw) := rfl
  have hstepD : coerceSingleValue dp raw (some .date) =
      match Option.map JSPrim.date (dp (jsString raw)) with
      | some v => v
      | none => autoDetect dp (jsString raw) := rfl
  refine ⟨?_, ?_, ?_, ?_, ?_, ?_⟩
  · cases ft <;> try rfl
    case number =>
        have hn : jsNumber (jsString raw) = none := by
          simpa [typedCoercionFails, Option.isNone_iff_eq_none] using hfail
        rw [hstepN, hn]
        rfl
    case boolean =>
        simp only [typedCoercionFails, Bool.not_eq_true'] at hfail
        rw [Bool.or_eq_false_iff, Bool.or_eq_false_iff] at hfail
        obtain ⟨⟨h12, h3⟩, h4⟩ := hfail
        rw [hstepB, h12, Bool.or_eq_false_iff.mpr ⟨h3, h4⟩]
        rfl
    case date =>
        have hn : dp (jsString raw) = none := by
          simpa [typedCoercionFails, Option.isNone_iff_eq_none] using hfail
        rw [hstepD, hn]
        rfl
  · intro q hq
    rw [hstepN, hq]
    rfl
  · intro h
    have hc : (decide (jsString raw = "true") || decide (jsString raw = "1")) = true := by
      rcases h with h | h <;> simp [h]
    rw [hstepB, hc]
    rfl
  · intro h
    have hc : (decide (jsString raw = "false") || decide (jsString raw = "0")) = true := by
      rcases h with h | h <;> simp [h]
    by_cases hc1 : (decide (jsString raw = "true") || decide (jsString raw = "1")) = true
    · exfalso
      rcases h with h | h <;> rcases Bool.or_eq_true_iff.mp hc1 with h' | h' <;>
        simp [h] at h'
    · have hc1' : (decide (jsString raw = "true") || decide (jsString raw = "1")) = false := by
        simpa using hc1
      rw [hstepB, hc1', hc]
      rfl
  · intro ms hms
    rw [hstepD, hms]
    rfl
  · intro s h1 h2 h3 h4
    unfold autoDetect
    rw [if_neg (by simp [h1]), if_neg h2, if_neg h3, if_neg (by simp [h4])]

/-- C3 witness: the amended theorem applied at a concrete failing typed
coercion (boolean-declared field, value "25"). -/
theorem claim_C3_coercion_fallback_witness :
    typedCoercionFails noDateParse "25" .boolean = true
    ∧ coerceSingleValue noDateParse (.str "25") (some .boolean) =
        autoDetect noDateParse (jsString (.str "25")) :=
  ⟨rfl, (claim_C3_coercion_fallback noDateParse (.str "25") .boolean rfl).1⟩

/-- C5: supplying two comparison operators on the same field yields a
single predicate entry holding both operators — concretely,
`age__gt=18&age__lt=30` yields one entry `{age: {$gt: 18, $lt: 30}}` — and
in general a non-equality operator applied to a field already holding a
comparison object merges into that object, preserving every binding under
a different Mongo operator and adding the new one. -/
theorem claim_C5_operator_merge :
    (parseFilters noDateParse [("age__gt", .str "18"), ("age__lt", .str "30")] {} =
        .ok [("age", .ops [("$gt", .prim (.num (parseDecimal "18"))),
                           ("$lt", .prim (.num (parseDecimal "30")))])]
      ∧ parseDecimal "18" = 18 ∧ parseDecimal "30" = 30)
    ∧ (∀ (dp : String → Option Int) (f : Filter) (field : String) (op : FilterOp)
        (raw : QVal) (ft : Option FieldType) (mrl : Nat) (m : List (String × JSValue))
        (v : JSValue), ¬(op = .eq) → getKey f field = some (.ops m) →
        coerceValue dp raw op ft mrl = .ok v →
        applyFilter dp f field op raw ft mrl =
          .ok (setKey f field (.ops (setKey m op.mongoOp v)))
        ∧ getKey (setKey m op.mongoOp v) op.mongoOp = some v
        ∧ (∀ k, ¬(k = op.mongoOp) → getKey (setKey m op.mongoOp v) k = getKey m k)) := by
  constructor
  · refine ⟨rfl, ?_, ?_⟩
    · have h : parseDecimal "18" = ((18 : ℕ) : ℚ) + ((0 : ℕ) : ℚ) / ((10 : ℚ) ^ (0 : ℕ)) := rfl
      rw [h]; norm_num
    · have h : parseDecimal "30" = ((30 : ℕ) : ℚ) + ((0 : ℕ) : ℚ) / ((10 : ℚ) ^ (0 : ℕ)) := rfl
      rw [h]; norm_num
  · intro dp f field op raw ft mrl m v hne hm hcv
    refine ⟨?_, getKey_setKey_self m op.mongoOp v,
      fun k hk => getKey_setKey_ne m op.mongoOp k v hk⟩
    unfold applyFilter
    rw [hcv]
    cases op <;> first
      | exact absurd rfl hne
      | (dsimp only; rw [hm])

/-- C5 witness: the merge clause applied at a concrete comparison object
(an existing `$gt` entry receiving an `$lt` operator). -/
theorem claim_C5_operator_merge_witness :
    applyFilter noDateParse [("age", .ops [("$gt", .prim (.num 18))])] "age" .lt
        (.str "30") none 100 =
      .ok [("age", .ops [("$gt", .prim (.num 18)),
                         ("$lt", .prim (.num (parseDecimal "30")))])] := by
  have h := (claim_C5_operator_merge.2 noDateParse
    [("age", .ops [("$gt", .prim (.num 18))])] "age" .lt (.str "30") none 100
    [("$gt", .prim (.num 18))] (.prim (.num (parseDecimal "30")))
    (by intro hc; cases hc) rfl rfl).1
  exact h

/-- C9: a bare equality and a suffix-operator condition on the same field
do not merge: applying an equality overwrites a previously accumulated
comparison object, and applying a non-equality operator when the field
holds a non-object (scalar) equality value replaces it with a fresh
comparison object — so for the query `age=25&age__gt=18` the equality
condition is absent from the final predicate. -/
theorem claim_C9_eq_operator_conflict :
    (∀ (dp : String → Option Int) (f : Filter) (field : String) (raw : QVal)
        (ft : Option FieldType) (mrl : Nat) (m : List (String × JSValue)),
        getKey f field = some (.ops m) →
        applyFilter dp f field .eq raw ft mrl =
          .ok (setKey f field (.value (.prim (coerceSingleValue dp raw ft))))
        ∧ getKey (setKey f field (.value (.prim (coerceSingleValue dp raw ft)))) field =
            some (.value (.prim (coerceSingleValue dp raw ft))))
    ∧ (∀ (dp : String → Option Int) (f : Filter) (field : String) (op : FilterOp)
        (raw : QVal) (ft : Option FieldType) (mrl : Nat) (v : JSValue) (x : JSValue),
        ¬(op = .eq) → coerceValue dp raw op ft mrl = .ok v →
        getKey f field = some (.value x) → x.isObject = false →
        applyFilter dp f field op raw ft mrl =
          .ok (setKey f field (.ops [(op.mongoOp, v)])))
    ∧ parseFilters noDateParse [("age", .str "25"), ("age__gt", .str "18")] {} =
        .ok [("age", .ops [("$gt", .prim (.num (parseDecimal "18")))])] := by
  refine ⟨?_, ?_, rfl⟩
  · intro dp f field raw ft mrl m hm
    exact ⟨rfl, getKey_setKey_self f field _⟩
  · intro dp f field op raw ft mrl v x hne hcv hm hx
    unfold applyFilter
    rw [hcv]
    cases op <;> first
      | exact absurd rfl hne
      | (dsimp only
         rw [hm]
         dsimp only
         rw [if_neg (by simp [hx])])

/-- C9 witness: applying the theorem at the concrete query `age=25`
followed by `age__gt=18` (clauses instantiated with the concrete filter
states the parser passes through). -/
theorem claim_C9_eq_operator_conflict_witness :
    applyFilter noDateParse [("age", .ops [("$gt", .prim (.num 18))])] "age" .eq
        (.str "25") none 100 =
      .ok [("age", .value (.prim (coerceSingleValue noDateParse (.str "25") none)))]
    ∧ applyFilter noDateParse [("age", .value (.prim (.num 25)))] "age" .gt
        (.str "18") none 100 =
      .ok [("age", .ops [("$gt", .prim (.num (parseDecimal "18")))])] :=
  ⟨(claim_C9_eq_operator_conflict.1 noDateParse
      [("age", .ops [("$gt", .prim (.num 18))])] "age" (.str "25") none 100
      [("$gt", .prim (.num 18))] rfl).1,
   claim_C9_eq_operator_conflict.2.1 noDateParse
      [("age", .value (.prim (.num 25)))] "age" .gt (.str "18") none 100
      (.prim (.num (parseDecimal "18"))) (.prim (.num 25))
      (by intro hc; cases hc) rfl rfl rfl⟩

/-- C4 counterexample: in the structured/bracket filter syntax an
empty-string (or undefined) value is NOT skipped: `filter[age]=` yields an
equality condition on the empty string (and an undefined value yields an
equality on the string "undefined"), so the claim fails for that syntax. -/
theorem claim_C4_counterexample :
    parseFilters noDateParse [("filter", .obj [("age", .str "")])] {} =
      .ok [("age", .value (.prim (.str "")))]
    ∧ parseFilters noDateParse [("filter", .obj [("age", .undef)])] {} =
      .ok [("age", .value (.prim (.str "undefined")))] :=
  ⟨rfl, rfl⟩

/-- C4 (amended): empty-string and undefined values are silently skipped —
contributing no condition and raising no error — for the simple-equality
and suffix-operator syntaxes (top-level query keys): parsing a query is the
same as parsing it with those entries removed.  In the structured/bracket
form the values are not skipped (see the counterexample).  The key-set of
the query is assumed duplicate-free, as for a JS object. -/
theorem claim_C4_empty_skip (dp : String → Option Int) (query : List (String × QVal))
    (options : FilterParserOptions) (hnodup : (query.map Prod.fst).Nodup) :
    parseFilters dp query options =
      parseFilters dp (query.filter (fun kv => !isEmptyOrUndef kv.2)) options := by
  unfold parseFilters
  dsimp only
  have hget := getKey_filter_nodup (fun kv => !isEmptyOrUndef kv.2) query "filter" hnodup
  have hpsp := fun f c => processSimpleParams_filter_empties dp options.adapter
    (allowedFieldsFor options.adapter options.queryConfig)
    (options.maxRegexLength.getD DEFAULT_MAX_REGEX_LENGTH)
    (options.maxFilters.getD DEFAULT_MAX_FILTERS) query f c
  cases hgf : getKey query "filter" with
  | none =>
      rw [hgf] at hget
      have hgf2 : getKey (query.filter (fun kv => !isEmptyOrUndef kv.2)) "filter" = none := by
        rw [hget]
      rw [hgf2]
      dsimp only
      exact hpsp [] 0
  | some v =>
      rw [hgf] at hget
      cases v with
      | undef =>
          have hgf2 : getKey (query.filter (fun kv => !isEmptyOrUndef kv.2)) "filter" =
              none := by rw [hget]; rfl
          rw [hgf2]
          dsimp only
          exact hpsp [] 0
      | str s =>
          by_cases hs : s = ""
          · subst hs
            have hgf2 : getKey (query.filter (fun kv => !isEmptyOrUndef kv.2)) "filter" =
                none := by rw [hget]; rfl
            rw [hgf2]
            dsimp only
            exact hpsp [] 0
          · have hgf2 : getKey (query.filter (fun kv => !isEmptyOrUndef kv.2)) "filter" =
                some (.str s) := by
              rw [hget]
              simp [isEmptyOrUndef, hs]
            rw [hgf2]
            dsimp only
            exact hpsp [] 0
      | obj entries =>
          have hgf2 : getKey (query.filter (fun kv => !isEmptyOrUndef kv.2)) "filter" =
              some (.obj entries) := by rw [hget]; rfl
          rw [hgf2]
          dsimp only
          cases hb : processBracketFields dp options.adapter
              (allowedFieldsFor options.adapter options.queryConfig)
              (options.maxRegexLength.getD DEFAULT_MAX_REGEX_LENGTH)
              (options.maxFilters.getD DEFAULT_MAX_FILTERS) [] 0 entries with
          | error e => rfl
          | ok fc =>
              dsimp only
              exact hpsp fc.1 fc.2

/-- C4 witness: the amended theorem applied at the concrete query
`name=john&role=` (duplicate-free keys). -/
theorem claim_C4_empty_skip_witness :
    ([("name", QVal.str "john"), ("role", QVal.str "")].map Prod.fst).Nodup
    ∧ parseFilters noDateParse [("name", .str "john"), ("role", .str "")] {} =
        parseFilters noDateParse
          ([("name", QVal.str "john"), ("role", QVal.str "")].filter
            (fun kv => !isEmptyOrUndef kv.2)) {} :=
  ⟨by decide, claim_C4_empty_skip noDateParse _ {} (by decide)⟩

/-- C6: page and limit are parsed as integers; an unparseable or
non-positive page resets to 1; an unparseable or non-positive limit resets
to the configured default; a limit above the configured maximum is clamped
to the maximum (the clamp also applies to the default), never rejected —
`parsePagination` is a total function into a pagination record; the
resulting skip is (page - 1) * limit; and `extractPagination` computes the
same page and limit. -/
theorem claim_C6_pagination (q : List (String × QVal)) (d m : Int) :
    (parsePagination q d m).skip =
        ((parsePagination q d m).page - 1) * (parsePagination q d m).limit
    ∧ (jsParseIntOpt (getKey q "page") = none → (parsePagination q d m).page = 1)
    ∧ (∀ p, jsParseIntOpt (getKey q "page") = some p → p < 1 →
        (parsePagination q d m).page = 1)
    ∧ (∀ p, jsParseIntOpt (getKey q "page") = some p → 1 ≤ p →
        (parsePagination q d m).page = p)
    ∧ (jsParseIntOpt (getKey q "limit") = none → (parsePagination q d m).limit = min d m)
    ∧ (∀ l, jsParseIntOpt (getKey q "limit") = some l → l < 1 →
        (parsePagination q d m).limit = min d m)
    ∧ (∀ l, jsParseIntOpt (getKey q "limit") = some l → 1 ≤ l →
        (parsePagination q d m).limit = min l m)
    ∧ extractPagination q (some d) (some m) =
        ((parsePagination q d m).page, (parsePagination q d m).limit) := by
  refine ⟨rfl, ?_, ?_, ?_, ?_, ?_, ?_, rfl⟩
  · intro h
    simp only [parsePagination]
    rw [h]
    rfl
  · intro p h hlt
    simp only [parsePagination]
    rw [h]
    dsimp only
    rw [if_pos hlt]
    rfl
  · intro p h hge
    simp only [parsePagination]
    rw [h]
    dsimp only
    rw [if_neg (by omega)]
  · intro h
    simp only [parsePagination]
    rw [h]
    dsimp only
    split <;> omega
  · intro l h hlt
    simp only [parsePagination]
    rw [h]
    dsimp only
    rw [show (if l < 1 then d else l) = d from if_pos hlt]
    split <;> omega
  · intro l h hge
    simp only [parsePagination]
    rw [h]
    dsimp only
    rw [show (if l < 1 then d else l) = l from if_neg (by omega)]
    split <;> omega

/-- C6 witness: the theorem applied at `page=0&limit=1000` with default 10
and maximum 100: page resets to 1, the limit is clamped to 100, and the
skip is 0. -/
theorem claim_C6_pagination_witness :
    (parsePagination [("page", .str "0"), ("limit", .str "1000")] 10 100).page = 1
    ∧ (parsePagination [("page", .str "0"), ("limit", .str "1000")] 10 100).limit =
        min 1000 100
    ∧ (parsePagination [("page", .str "0"), ("limit", .str "1000")] 10 100).skip =
        ((parsePagination [("page", .str "0"), ("limit", .str "1000")] 10 100).page - 1) *
          (parsePagination [("page", .str "0"), ("limit", .str "1000")] 10 100).limit := by
  have h := claim_C6_pagination [("page", .str "0"), ("limit", .str "1000")] 10 100
  exact ⟨h.2.2.1 0 (by decide) (by norm_num), h.2.2.2.2.2.2.1 1000 (by decide) (by norm_num),
    h.1⟩

/-- C7: a partial-match (like) value longer than the configured maximum
regex length is rejected with a BadRequest client error before any pattern
is produced; otherwise the value compiles to the case-insensitive pattern
(`regexI` models `new RegExp(pattern, "i")`) whose text is the input with
every regex-special character escaped; and in any escaped text a backslash
always escapes the character after it and no special character appears
unescaped. -/
theorem claim_C7_like_escape (dp : String → Option Int) (raw : QVal)
    (ft : Option FieldType) (mrl : Nat) :
    ((jsString raw).length > mrl →
      coerceValue dp raw .like ft mrl =
        .error (.badRequest s!"Regex pattern too long. Maximum length: {mrl}"))
    ∧ ((jsString raw).length ≤ mrl →
      coerceValue dp raw .like ft mrl = .ok (.regexI (escapeRegex (jsString raw))))
    ∧ (∀ s : String, escapedProperly (escapeRegex s).data = true) := by
  have hstep : coerceValue dp raw .like ft mrl =
      (if (jsString raw).length > mrl then
        .error (.badRequest s!"Regex pattern too long. Maximum length: {mrl}")
       else .ok (.regexI (escapeRegex (jsString raw)))) := rfl
  refine ⟨?_, ?_, ?_⟩
  · intro h
    rw [hstep, if_pos h]
  · intro h
    rw [hstep, if_neg (by omega)]
  · intro s
    exact escapeRegexChars_escaped s.data

/-- C7 witness: the theorem applied at the value "a.b*" (short enough,
special characters escaped) and at a 101-character value with maximum 100
(rejected). -/
theorem claim_C7_like_escape_witness :
    ((jsString (.str "a.b*")).length ≤ 100
      ∧ coerceValue noDateParse (.str "a.b*") .like none 100 =
          .ok (.regexI (escapeRegex (jsString (.str "a.b*"))))
      ∧ escapeRegex "a.b*" = "a\\.b\\*")
    ∧ ((jsString (.str (String.mk (List.replicate 101 'a')))).length > 100
      ∧ coerceValue noDateParse (.str (String.mk (List.replicate 101 'a'))) .like none 100 =
          .error (.badRequest s!"Regex pattern too long. Maximum length: {(100 : Nat)}")) :=
  ⟨⟨by decide, (claim_C7_like_escape noDateParse (.str "a.b*") none 100).2.1 (by decide), rfl⟩,
   ⟨by decide,
    (claim_C7_like_escape noDateParse (.str (String.mk (List.replicate 101 'a'))) none
      100).1 (by decide)⟩⟩

/-- C8: when the before-delete hook sets preventDefault on the hook
context, the delete operation returns only the sentinel result (status
code 0, no data), the store delete call never happens, and the
after-delete hook never runs. -/
theorem claim_C8_preventDefault_short_circuit {Doc : Type}
    (store : String → Option Doc) (config : CollectionConfigM Doc)
    (name : String) (user : Option Json) (id : String)
    (h : (runHookM (config.hooks.bind HooksM.beforeDelete)
        { collection := name, operation := "delete", user := user,
          id := some id }).preventDefault = true) :
    (deleteDocument store config name user id).result = .ok (0, none)
    ∧ (deleteDocument store config name user id).storeDeleteCalled = false
    ∧ (deleteDocument store config name user id).afterHookRan = false := by
  unfold deleteDocument
  dsimp only
  rw [if_pos h]
  exact ⟨rfl, rfl, rfl⟩

/-- C8 witness: the theorem applied with a concrete before-delete hook
setting preventDefault, over a store that does hold the target document. -/
theorem claim_C8_preventDefault_short_circuit_witness :
    (deleteDocument (fun _ => some ()) pdConfig "users" none "1").result = .ok (0, none)
    ∧ (deleteDocument (fun _ => some ()) pdConfig "users" none "1").storeDeleteCalled = false
    ∧ (deleteDocument (fun _ => some ()) pdConfig "users" none "1").afterHookRan = false :=
  claim_C8_preventDefault_short_circuit (fun _ => some ()) pdConfig "users" none "1" rfl

/-- C10: the list operation computes the pagination meta page and limit
from the raw query parameters using only the global pagination defaults,
independently of the query descriptor actually executed; consequently a
per-collection maximum limit of 5 with `limit=50` yields an executed store
limit of 5 but a reported meta limit of 50, and a before-find hook
replacing the query limit with 3 yields an executed limit of 3 while the
meta still reports the global default 10. -/
theorem claim_C10_meta_from_raw_query :
    (∀ {Doc : Type} (dp : String → Option Int) (store : ListStore Doc)
        (adapter : Option SchemaAdapterM) (config : CollectionConfigM Doc)
        (defaults : Option DefaultsM) (name : String) (user : Option Json)
        (rawQuery : List (String × QVal)) (st : Int) (ds : List Doc)
        (meta : PaginationMeta),
        (listDocuments dp store adapter config defaults name user rawQuery).result =
          .ok (st, ds, some meta) →
        (meta.page, meta.limit) = extractPagination rawQuery
          (defaults.bind (fun d => d.pagination.bind PaginationDefaults.limit))
          (defaults.bind (fun d => d.pagination.bind PaginationDefaults.maxLimit)))
    ∧ (listDocuments noDateParse listStore7 none cfgMax5 none "users" none
        [("limit", .str "50")]).executedFind =
        some { filter := [], sort := [], skip := 0, limit := 5, projection := [] }
    ∧ (listDocuments noDateParse listStore7 none cfgMax5 none "users" none
        [("limit", .str "50")]).result =
        .ok (200, [], some { page := 1, limit := 50, total := 7, totalPages := 1 })
    ∧ (listDocuments noDateParse listStore7 none cfgHook3 none "users" none []).executedFind =
        some { filter := [], sort := [], skip := 0, limit := 3, projection := [] }
    ∧ (listDocuments noDateParse listStore7 none cfgHook3 none "users" none []).result =
        .ok (200, [], some { page := 1, limit := 10, total := 7, totalPages := 1 }) := by
  refine ⟨?_, rfl, rfl, rfl, rfl⟩
  intro Doc dp store adapter config defaults name user rawQuery st ds meta h
  simp only [listDocuments] at h
  split at h
  · simp at h
  · split at h
    · simp at h
    · simp only [Except.ok.injEq, Prod.mk.injEq, Option.some.injEq] at h
      obtain ⟨-, -, hmeta⟩ := h
      rw [← hmeta]
      rfl

/-- C10 witness: the general clause applied at the concrete per-collection
maximum-limit configuration. -/
theorem claim_C10_meta_from_raw_query_witness :
    (({ page := 1, limit := 50, total := 7, totalPages := 1 } : PaginationMeta).page,
     ({ page := 1, limit := 50, total := 7, totalPages := 1 } : PaginationMeta).limit) =
      extractPagination [("limit", QVal.str "50")] none none :=
  claim_C10_meta_from_raw_query.1 noDateParse listStore7 none cfgMax5 none "users" none
    [("limit", .str "50")] 200 [] { page := 1, limit := 50, total := 7, totalPages := 1 }
    claim_C10_meta_from_raw_query.2.2.1

/-- C2 counterexample: the claim as stated fails in two places.  A
reserved-prefix projection entry on the single-record get is silently
dropped, not rejected: the request proceeds (status 200) with an empty
projection.  A reserved-prefix top-level patch-body key is rejected with a
ValidationError (code VALIDATION_ERROR), not a BadRequest error. -/
theorem claim_C2_counterexample :
    getDocProjection (some (.str "$secret")) = some []
    ∧ (@getDocument Unit (fun _ => some ()) {} "users" none "1"
        (some (.str "$secret"))).result = .ok (200, some ())
    ∧ (@patchDocument Unit (fun _ _ => some ()) {} "users" none "1"
        (.obj [("$set", .obj [("role", .str "admin")])])).result =
        .error (.validation "Invalid field name: $set")
    ∧ (ApiError.validation "Invalid field name: $set").code = "VALIDATION_ERROR"
    ∧ ¬((ApiError.validation "Invalid field name: $set").code = "BAD_REQUEST") :=
  ⟨rfl, rfl, rfl, rfl, by decide⟩

/-- C2 (amended): a field name beginning with the reserved prefix is
rejected with BadRequest as a top-level filter key (when its value is
non-empty and defined; empty-valued keys are skipped before validation),
as a bracket-form filter field, as a sort field, and as a list-projection
entry; as a top-level patch-body key it is rejected with a ValidationError
(status 400); on the single-record get a reserved-prefix projection entry
is silently dropped rather than rejected.  In all cases no reserved-prefix
field key is ever passed to the store driver: successfully built filters,
sorts and projections contain none, the get projection contains none, and
the patch `$set` operand is exactly the checked body when no hook replaces
it. -/
theorem claim_C2_injection_rejection :
    (∀ (dp : String → Option Int) (query : List (String × QVal))
        (options : FilterParserOptions) (key : String) (value : QVal),
        (key, value) ∈ query → startsWithDollar key = true →
        reservedParams.contains key = false → isEmptyOrUndef value = false →
        ∃ msg, parseFilters dp query options = .error (.badRequest msg))
    ∧ (∀ (dp : String → Option Int) (query : List (String × QVal))
        (options : FilterParserOptions) (field : String) (ops : QVal)
        (entries : List (String × QVal)),
        getKey query "filter" = some (.obj entries) → (field, ops) ∈ entries →
        startsWithDollar field = true →
        ∃ msg, parseFilters dp query options = .error (.badRequest msg))
    ∧ (∀ (s : String) (qc : Option QueryConfig) (adapter : Option SchemaAdapterM)
        (entry : String), entry ∈ splitCommaTrim s →
        startsWithDollar (if startsWithChar '-' entry then dropFirstChar entry else entry) =
          true →
        ∃ msg, parseSort (some (.str s)) qc adapter = .error (.badRequest msg))
    ∧ (∀ (s : String) (adapter : Option SchemaAdapterM) (entry : String),
        entry ∈ splitCommaTrim s → startsWithDollar entry = true →
        ∃ msg, parseProjection (some (.str s)) adapter = .error (.badRequest msg))
    ∧ (∀ {Doc : Type} (updateById : String → Json → Option Doc)
        (config : CollectionConfigM Doc) (name : String) (user : Option Json)
        (id : String) (fields : List (String × Json)) (key : String) (v : Json),
        (key, v) ∈ fields → startsWithDollar key = true →
        (∃ msg, (patchDocument updateById config name user id (.obj fields)).result =
            .error (.validation msg))
        ∧ (patchDocument updateById config name user id (.obj fields)).executedSet = none)
    ∧ (∀ (dp : String → Option Int) (query : List (String × QVal))
        (options : FilterParserOptions) (f : Filter),
        parseFilters dp query options = .ok f →
        ∀ kv ∈ f, startsWithDollar kv.1 = false)
    ∧ (∀ (as : Option (List String)) (fields : List String)
        (sort' : List (String × Int)), sortLoop as [] fields = .ok sort' →
        ∀ kv ∈ sort', startsWithDollar kv.1 = false)
    ∧ (∀ (sf : Option (List String)) (fields : List String)
        (proj' : List (String × Nat)), projLoop sf [] fields = .ok proj' →
        ∀ kv ∈ proj', startsWithDollar kv.1 = false)
    ∧ (∀ (fieldsParam : Option QVal) (pr : List (String × Nat)),
        getDocProjection fieldsParam = some pr →
        ∀ kv ∈ pr, startsWithDollar kv.1 = false)
    ∧ (∀ {Doc : Type} (updateById : String → Json → Option Doc) (name : String)
        (user : Option Json) (id : String) (fields : List (String × Json)),
        (∀ kv ∈ fields, ¬startsWithDollar kv.1 = true) →
        (patchDocument updateById ({} : CollectionConfigM Doc) name user id
          (.obj fields)).executedSet = some (.obj fields)) := by
  refine ⟨?_, ?_, ?_, ?_, ?_, ?_, ?_, ?_, ?_, ?_⟩
  · intro dp query options key value hmem hk hres hval
    exact parseFilters_simple_dollar hmem hk hres hval
  · intro dp query options field ops entries hfilter hmem hk
    exact parseFilters_bracket_dollar hfilter hmem hk
  · intro s qc adapter entry hmem hd
    exact parseSort_str_dollar_error hmem hd
  · intro s adapter entry hmem hd
    exact parseProjection_str_dollar_error hmem hd
  · intro Doc updateById config name user id fields key v hmem hk
    exact patchDocument_dollar_error updateById config name user id fields key v hmem hk
  · intro dp query options f h
    exact parseFilters_ok_no_dollar h
  · intro as fields sort' h
    exact sortLoop_ok_no_dollar as fields [] sort' h (by intro kv hkv; cases hkv)
  · intro sf fields proj' h
    exact projLoop_ok_no_dollar sf fields [] proj' h (by intro kv hkv; cases hkv)
  · intro fieldsParam pr h
    exact getDocProjection_no_dollar h
  · intro Doc updateById name user id fields hno
    exact patchDocument_no_hooks_executedSet updateById name user id fields hno

/-- C2 witness: every clause of the amended theorem applied at a concrete
input ($-prefixed filter key, bracket operator field, sort field,
projection entry, patch-body key; and the prefix-free successful cases). -/
theorem claim_C2_injection_rejection_witness :
    (∃ msg, parseFilters noDateParse [("$where", .str "1")] {} = .error (.badRequest msg))
    ∧ (∃ msg, parseFilters noDateParse [("filter", .obj [("$gt", .str "1")])] {} =
        .error (.badRequest msg))
    ∧ (∃ msg, parseSort (some (.str "-$x")) none none = .error (.badRequest msg))
    ∧ (∃ msg, parseProjection (some (.str "$secret")) none = .error (.badRequest msg))
    ∧ ((∃ msg, (patchDocument (fun _ _ => some ()) ({} : CollectionConfigM Unit) "users"
          none "1" (.obj [("$set", .null)])).result = .error (.validation msg))
        ∧ (patchDocument (fun _ _ => some ()) ({} : CollectionConfigM Unit) "users"
            none "1" (.obj [("$set", .null)])).executedSet = none)
    ∧ (∀ kv ∈ ([("age", FilterEntry.value (.prim (.num (parseDecimal "25"))))] : Filter),
        startsWithDollar kv.1 = false)
    ∧ (∀ kv ∈ ([("name", (1 : Int))] : List (String × Int)),
        startsWithDollar kv.1 = false)
    ∧ (∀ kv ∈ ([("name", (1 : Nat))] : List (String × Nat)),
        startsWithDollar kv.1 = false)
    ∧ (∀ kv ∈ ([("name", (1 : Nat))] : List (String × Nat)),
        startsWithDollar kv.1 = false)
    ∧ (patchDocument (fun _ _ => some ()) ({} : CollectionConfigM Unit) "users" none "1"
        (.obj [("role", Json.str "admin")])).executedSet =
        some (.obj [("role", Json.str "admin")]) := by
  refine ⟨?_, ?_, ?_, ?_, ?_, ?_, ?_, ?_, ?_, ?_⟩
  · exact claim_C2_injection_rejection.1 noDateParse _ {} "$where" (.str "1")
      (List.mem_singleton.mpr rfl) rfl (by decide) rfl
  · exact claim_C2_injection_rejection.2.1 noDateParse _ {} "$gt" (.str "1")
      [("$gt", QVal.str "1")] rfl (List.mem_singleton.mpr rfl) rfl
  · exact claim_C2_injection_rejection.2.2.1 "-$x" none none "-$x"
      (List.mem_singleton.mpr rfl) (by decide)
  · exact claim_C2_injection_rejection.2.2.2.1 "$secret" none "$secret"
      (List.mem_singleton.mpr rfl) rfl
  · exact claim_C2_injection_rejection.2.2.2.2.1 (fun _ _ => some ())
      ({} : CollectionConfigM Unit) "users" none "1" [("$set", Json.null)] "$set" Json.null
      (List.mem_singleton.mpr rfl) rfl
  · exact claim_C2_injection_rejection.2.2.2.2.2.1 noDateParse
      [("age", QVal.str "25")] {} _ rfl
  · exact claim_C2_injection_rejection.2.2.2.2.2.2.1 none ["name"] _ rfl
  · exact claim_C2_injection_rejection.2.2.2.2.2.2.2.1 none ["name"] _ rfl
  · exact claim_C2_injection_rejection.2.2.2.2.2.2.2.2.1 (some (.str "name")) _ rfl
  · exact claim_C2_injection_rejection.2.2.2.2.2.2.2.2.2 (fun _ _ => some ()) "users" none
      "1" [("role", Json.str "admin")]
      (by intro kv hkv; rw [List.mem_singleton.mp hkv]; decide)

end Monapi
